import Mathlib

/-!
# Verification of the PNC statement text parser (`src/parser.py`)

This file gives a shallow embedding of `parse_transaction_text` and its
helpers.  Lines of input are modelled as `List Char`; Python floats are
modelled by exact decimal numbers (the `Dec` structure below, with value
semantics in `ℚ` through `Dec.toRat`) — every numeral the parser's
grammars accept is decimal, so decimal arithmetic is exact on it and
ties in rounding are never exercised; code that can
raise an exception (`IndexError` on `tokens[i]`, `ValueError` from
`float`/`int`/tuple unpacking) is modelled in the `Option` monad, with
`none` standing for a raised exception.  The literal regular expressions
of the source are hand-compiled into executable matchers; each matcher's
doc comment records the pattern it implements and why the compilation is
faithful (the patterns are deterministic: every quantifier is delimited
by a character its body cannot match, so backtracking never changes the
outcome).
-/

/-- The whitespace characters of Python's `str.split()` (no separator). -/
def isPySpace (c : Char) : Bool :=
  c == ' ' || c == '\t' || c == '\n' || c == '\r' || c == '\x0b' || c == '\x0c'

/-- Accumulator for `pySplit`; emits the pending token on whitespace. -/
def pySplitAux : List Char → List Char → List (List Char)
  | acc, [] => if acc.isEmpty then [] else [acc.reverse]
  | acc, c :: cs =>
    if isPySpace c then
      if acc.isEmpty then pySplitAux [] cs
      else acc.reverse :: pySplitAux [] cs
    else pySplitAux (c :: acc) cs

/-- Python's `str.split()` with no argument: splits on runs of whitespace,
ignoring leading and trailing whitespace. -/
def pySplit (l : List Char) : List (List Char) := pySplitAux [] l

/-- Accumulator for `splitOnChar`. -/
def splitOnCharAux (sep : Char) : List Char → List Char → List (List Char)
  | acc, [] => [acc.reverse]
  | acc, c :: cs =>
    if c == sep then acc.reverse :: splitOnCharAux sep [] cs
    else splitOnCharAux sep (c :: acc) cs

/-- Python's `str.split(sep)` with an explicit one-character separator:
non-collapsing, so adjacent separators yield empty parts. -/
def splitOnChar (sep : Char) (l : List Char) : List (List Char) :=
  splitOnCharAux sep [] l

/-- `tokens[i+2].split('/')` unpacked into exactly two names: any other
number of parts raises `ValueError` (modelled as `none`). -/
def splitSlashTwo (t : List Char) : Option (List Char × List Char) :=
  match splitOnChar '/' t with
  | [a, b] => some (a, b)
  | _ => none

/-- Literal substring search: `re.search(pat, line)` for the reserved
section headers, all of which are literal texts (`/` is literal in a
regular expression). -/
def containsSub (pat : List Char) : List Char → Bool
  | [] => pat.isEmpty
  | c :: rest => pat.isPrefixOf (c :: rest) || containsSub pat rest

/-- Numeric value of a digit string (most significant first). -/
def digitsToNat (s : List Char) : Nat :=
  s.foldl (fun n c => 10 * n + (c.toNat - '0'.toNat)) 0

/-- A non-empty all-digit string, as a `Nat`; `none` otherwise. -/
def digitsNat? (s : List Char) : Option Nat :=
  if !s.isEmpty && s.all Char.isDigit then some (digitsToNat s) else none

/-- Python's `int(s)` on separator-free tokens: optional sign, digits.
(`int` also tolerates surrounding whitespace and `_` group marks; the
tokens this parser feeds it never contain whitespace, and inputs using
`_` marks are outside the scope of the crash-freedom condition below.) -/
def pyInt (s : List Char) : Option Int :=
  match s with
  | [] => none
  | c :: r =>
    if c == '-' then (digitsNat? r).map (fun n => -(n : Int))
    else if c == '+' then (digitsNat? r).map (fun n => (n : Int))
    else (digitsNat? (c :: r)).map (fun n => (n : Int))

/-- `10 ^ k` as an integer, by plain recursion. -/
def pow10 : Nat → Int
  | 0 => 1
  | n + 1 => 10 * pow10 n

/-- The decimal numbers: `man / 10 ^ exp`.  Every `float` this program
manipulates is produced by `float()` on a decimal numeral, so its value
is decimal and this representation is exact; compare `Dec.toRat` for the
value semantics and `Dec.beq` for Python's value-based `==`. -/
structure Dec where
  man : Int
  exp : Nat
deriving DecidableEq, Repr

/-- The rational value of a decimal number. -/
def Dec.toRat (d : Dec) : ℚ := (d.man : ℚ) / (10 : ℚ) ^ d.exp

/-- Python's `float` equality, on values. -/
def Dec.beq (a b : Dec) : Bool := a.man * pow10 b.exp == b.man * pow10 a.exp

/-- Python truthiness of a float: zero is falsy. -/
def Dec.isZero (d : Dec) : Bool := d.man == 0

/-- `0.0`. -/
def Dec.zero : Dec := ⟨0, 0⟩

/-- Float addition (exact on decimals): align the scales. -/
def Dec.add (a b : Dec) : Dec :=
  let e := max a.exp b.exp
  ⟨a.man * pow10 (e - a.exp) + b.man * pow10 (e - b.exp), e⟩

/-- Float negation. -/
def Dec.neg (d : Dec) : Dec := ⟨-d.man, d.exp⟩

/-- Python's `float(s)` on unsigned decimal numerals: digits, optional
point, fraction digits; at least one digit overall.  Exotic `float`
literals (exponents, `inf`, `nan`) are not decimal and are left out of
the model; no claim depends on them. -/
def parseUFloat (s : List Char) : Option Dec :=
  let ip := s.takeWhile Char.isDigit
  let rest := s.dropWhile Char.isDigit
  match rest with
  | [] => if ip.isEmpty then none else some ⟨(digitsToNat ip : Int), 0⟩
  | '.' :: frac =>
    if frac.all Char.isDigit && (!ip.isEmpty || !frac.isEmpty) then
      some ⟨(digitsToNat ip : Int) * pow10 frac.length + (digitsToNat frac : Int),
            frac.length⟩
    else none
  | _ => none

/-- Python's `float(s)`: optional sign then an unsigned decimal numeral. -/
def pyFloat (s : List Char) : Option Dec :=
  match s with
  | [] => none
  | c :: r =>
    if c == '-' then (parseUFloat r).map Dec.neg
    else if c == '+' then parseUFloat r
    else parseUFloat (c :: r)

/-- Round `n / m` (for `m > 0`) half-to-even to an integer, Python's
`round` policy; the remainder against the floor decides the direction. -/
def roundHalfEvenInt (n m : Int) : Int :=
  if 2 * (n - n.fdiv m * m) < m then n.fdiv m
  else if m < 2 * (n - n.fdiv m * m) then n.fdiv m + 1
  else if n.fdiv m % 2 = 0 then n.fdiv m else n.fdiv m + 1

/-- `round(x, 2)` of the source, on the exact-decimal model: the result
always carries two fraction digits. -/
def Dec.round2 (d : Dec) : Dec :=
  if d.exp ≤ 2 then ⟨d.man * pow10 (2 - d.exp), 2⟩
  else ⟨roundHalfEvenInt d.man (pow10 (d.exp - 2)), 2⟩

/-- Characters a pre-decimal-point amount may contain: digits and the
thousands separator. -/
def amtChar (c : Char) : Bool := c.isDigit || c == ','

/-- `(,\d{3})*` anchored against the rest of a digit-and-comma run: the
run must consist exactly of groups of a comma and three digits. -/
def groupedTail : List Char → Bool
  | [] => true
  | c :: a :: b :: d :: rest =>
    (c == ',') && a.isDigit && b.isDigit && d.isDigit && groupedTail rest
  | _ => false

/-- `\d{1,3}(,\d{3})*` consuming an entire digit-and-comma run. -/
def commaGrouped (run : List Char) : Bool :=
  let g := run.takeWhile Char.isDigit
  decide (1 ≤ g.length) && decide (g.length ≤ 3) &&
    groupedTail (run.dropWhile Char.isDigit)

/-- `(\d{1,3}(,\d{3})*|\d*)` consuming an entire digit-and-comma run:
either all digits (possibly empty) or comma-grouped.  In the regular
expression the alternation is followed by `\.`, which cannot occur
inside the run, so the run the engine consumes is exactly the maximal
digit-and-comma run and the alternation must consume all of it. -/
def amountShape (run : List Char) : Bool :=
  run.all Char.isDigit || commaGrouped run

/-- `check_pattern = re.compile(r'\d+ \d+\.\d{2} \d{2}/\d{2}')`, used with
`.match` (anchored at the start, rest of the line free).  Both `\d+` are
delimited by a non-digit, so they match maximal digit runs. -/
def check_pattern (l : List Char) : Bool :=
  let r1 := l.takeWhile Char.isDigit
  let s1 := l.dropWhile Char.isDigit
  if r1.isEmpty then false
  else
    match s1 with
    | c :: s2 =>
      if c == ' ' then
        let r2 := s2.takeWhile Char.isDigit
        let s3 := s2.dropWhile Char.isDigit
        if r2.isEmpty then false
        else
          match s3 with
          | dot :: a :: b :: sp :: c1 :: c2 :: sl :: d1 :: d2 :: _ =>
            (dot == '.') && a.isDigit && b.isDigit && (sp == ' ') &&
              c1.isDigit && c2.isDigit && (sl == '/') && d1.isDigit && d2.isDigit
          | _ => false
      else false
    | [] => false

/-- `trans_pattern = re.compile(r'^\d{2}/\d{2} (\d{1,3}(,\d{3})*|\d*)\.\d{2} ')`,
used with `.match`. -/
def trans_pattern (l : List Char) : Bool :=
  match l with
  | m1 :: m2 :: sl :: d1 :: d2 :: sp :: rest =>
    m1.isDigit && m2.isDigit && (sl == '/') && d1.isDigit && d2.isDigit &&
      (sp == ' ') &&
      (match rest.dropWhile amtChar with
       | dot :: a :: b :: sp2 :: _ =>
         (dot == '.') && a.isDigit && b.isDigit && (sp2 == ' ') &&
           amountShape (rest.takeWhile amtChar)
       | _ => false)
  | _ => false

/-- One token of the totals line:
`\d{1,3}(?:,\d{3})*\.\d{2}-?` (comma-grouped amount, two decimals,
optional trailing minus). -/
def totalsTok (t : List Char) : Bool :=
  let core := if t.getLast? == some '-' then t.dropLast else t
  match core.dropWhile amtChar with
  | dot :: a :: b :: [] =>
    (dot == '.') && a.isDigit && b.isDigit && commaGrouped (core.takeWhile amtChar)
  | _ => false

/-- `totals_pattern = re.compile(r'^(\d{1,3}(?:,\d{3})*\.\d{2}-?)(?: (\d{1,3}(?:,\d{3})*\.\d{2}-?)){3}$')`,
a full-line match: exactly four tokens joined by single spaces. -/
def totals_pattern (l : List Char) : Bool :=
  match splitOnChar ' ' l with
  | [t1, t2, t3, t4] => totalsTok t1 && totalsTok t2 && totalsTok t3 && totalsTok t4
  | _ => false

/-- `period_pattern` matched at the start of a given suffix:
`For the period (\d{2})/(\d{2})/(\d{4}) to (\d{2})/(\d{2})/(\d{4})`.
Returns the groups the source uses: start month, start year, end year. -/
def periodMatchAt (s : List Char) : Option (List Char × List Char × List Char) :=
  if ("For the period ".toList).isPrefixOf s then
    match s.drop 15 with
    | m1 :: m2 :: s1 :: a1 :: a2 :: s2 :: y1 :: y2 :: y3 :: y4 ::
        t1 :: t2 :: t3 :: t4 ::
        n1 :: n2 :: s3 :: b1 :: b2 :: s4 :: z1 :: z2 :: z3 :: z4 :: _ =>
      if m1.isDigit && m2.isDigit && (s1 == '/') && a1.isDigit && a2.isDigit &&
          (s2 == '/') && y1.isDigit && y2.isDigit && y3.isDigit && y4.isDigit &&
          (t1 == ' ') && (t2 == 't') && (t3 == 'o') && (t4 == ' ') &&
          n1.isDigit && n2.isDigit && (s3 == '/') && b1.isDigit && b2.isDigit &&
          (s4 == '/') && z1.isDigit && z2.isDigit && z3.isDigit && z4.isDigit then
        some ([m1, m2], [y1, y2, y3, y4], [z1, z2, z3, z4])
      else none
    | _ => none
  else none

/-- `period_pattern.search(line)`: try the pattern at every position, first
match wins. -/
def periodSearchLine : List Char → Option (List Char × List Char × List Char)
  | [] => none
  | c :: rest =>
    match periodMatchAt (c :: rest) with
    | some r => some r
    | none => periodSearchLine rest

/-- The `for line in data` loop of the period extractor: first line with a
match wins. -/
def findPeriod : List (List Char) → Option (List Char × List Char × List Char)
  | [] => none
  | l :: rest =>
    match periodSearchLine l with
    | some r => some r
    | none => findPeriod rest

/-- Period extraction with its fallback: if no line declares the period,
the current calendar year (a parameter of the model, the source reads the
clock) is used for both years and the start month is `"01"`. -/
def periodExtract (currentYear : List Char) (data : List (List Char)) :
    List Char × List Char × List Char :=
  match findPeriod data with
  | some r => r
  | none => (['0', '1'], currentYear, currentYear)

-- The transaction data model (`TransactionType`, `Transaction`).

/-- The `TransactionType` enum of the source. -/
inductive TransactionType where
  | DEDUCTION
  | DEPOSIT
  | CHECK
deriving DecidableEq, Repr

/-- The `Transaction` value: date string, type, amount, description.
Equality on transactions in the source is structural over these four
fields. -/
structure Transaction where
  date : List Char
  type : TransactionType
  amount : Dec
  description : List Char
deriving DecidableEq, Repr

/-- The reserved section-header texts, in source order. -/
def hDeposits : List Char := "Deposits and Other Additions".toList

/-- Header opening the check section. -/
def hChecks : List Char := "Checks and Substitute Checks".toList

/-- Header opening the card-withdrawal (deduction) section. -/
def hBanking : List Char := "Banking/Debit Card Withdrawals and Purchases".toList

/-- Header of the online-deductions section (reserved only). -/
def hOnline : List Char := "Online and Electronic Banking Deductions".toList

/-- Header of the other-deductions section (reserved only). -/
def hOther : List Char := "Other Deductions".toList

/-- The terminal header. -/
def hDaily : List Char := "Daily Balance Detail".toList

/-- The `reserved` tuple of the source. -/
def reserved : List (List Char) := [hDeposits, hChecks, hBanking, hOnline, hOther, hDaily]

/-- The year-disambiguation logic, duplicated verbatim in the source's
check and deposit/deduction branches:
if the two years differ, `int(month) >= int(start_month)` selects the
start year, otherwise the end year; with equal years the start year is
used without evaluating `int` at all. -/
def resolveYear (sm sy ey m : List Char) : Option (List Char) :=
  if sy ≠ ey then
    match pyInt m, pyInt sm with
    | some mi, some si => some (if si ≤ mi then sy else ey)
    | _, _ => none
  else some sy

/-- `re.sub(r'/', '.', date)`: replace every slash with a dot. -/
def slashToDot (l : List Char) : List Char :=
  l.map (fun c => if c == '/' then '.' else c)

/-- Mutable locals of the parsing loop (`ParseState` of the spec):
accumulated transactions, current category, expected totals. -/
structure ParseState where
  transactions : List Transaction
  trans_type : Option TransactionType
  expected_deposits : Dec
  expected_deductions : Dec
deriving DecidableEq, Repr

/-- The initial parse state. -/
def initState : ParseState := ⟨[], none, Dec.zero, Dec.zero⟩

/-- Decoding of one totals token at run time:
`total = l.replace(',', '')`, overwritten by `'-' + l[:-1]` — with the
commas still in place — when the token ends in `-`. -/
def decodeTok (t : List Char) : Option Dec :=
  if t.getLast? == some '-' then pyFloat ('-' :: t.dropLast)
  else pyFloat (t.filter (fun c => !(c == ',')))

/-- The totals-decoding loop body: `float` on each whitespace token. -/
def decodeTotals (l : List Char) : Option (List Dec) :=
  (pySplit l).mapM decodeTok

/-- The totals block of the loop: guarded by `not expected_deductions`
(i.e. the current value is `0.0`) and the totals pattern; positions 1 and
2 of the decoded line become the expected deposits and deductions. -/
def applyTotals (st : ParseState) (line : List Char) : Option ParseState :=
  if st.expected_deductions.isZero && totals_pattern line then
    match decodeTotals line with
    | none => none
    | some ts =>
      match ts.get? 1 with
      | none => none
      | some dep =>
        match ts.get? 2 with
        | none => none
        | some ded =>
          some { st with expected_deposits := dep, expected_deductions := ded }
  else some st

/-- The section-header `if/elif` chain: result is the new current
category and whether the loop `break`s (terminal header, checked last). -/
def headerUpdate (line : List Char) (cur : Option TransactionType) :
    Option TransactionType × Bool :=
  if containsSub hDeposits line then (some .DEPOSIT, false)
  else if containsSub hChecks line then (some .CHECK, false)
  else if containsSub hBanking line then (some .DEDUCTION, false)
  else if containsSub hDaily line then (cur, true)
  else (cur, false)

/-- The check-entry loop `for i in range(0, len(tokens), 4)`: fixed
quadruples of tokens; an incomplete final quadruple raises `IndexError`. -/
def processCheckGroups (sm sy ey : List Char) (tt : TransactionType) :
    List (List Char) → Option (List Transaction)
  | [] => some []
  | ck :: am :: dt :: rf :: rest =>
    match pyFloat (am.filter (fun c => !(c == ','))) with
    | none => none
    | some amtQ =>
      match splitSlashTwo dt with
      | none => none
      | some md =>
        match resolveYear sm sy ey md.1 with
        | none => none
        | some year =>
          match processCheckGroups sm sy ey tt rest with
          | none => none
          | some ts =>
            some (⟨slashToDot (md.1 ++ '/' :: md.2 ++ '/' :: year), tt, amtQ.round2,
              ("Check number: ".toList) ++ ck ++ (" [ref:".toList) ++ rf ++ [']']⟩ :: ts)
  | _ => none

/-- The deposit/deduction entry branch, including the one-line-lookahead
description continuation. -/
def processTransLine (sm sy ey : List Char) (tt : TransactionType)
    (line next : List Char) : Option Transaction :=
  match (pySplit line).get? 0 with
  | none => none
  | some t0 =>
    match splitSlashTwo t0 with
    | none => none
    | some md =>
      match resolveYear sm sy ey md.1 with
      | none => none
      | some year =>
        match (pySplit line).get? 1 with
        | none => none
        | some t1 =>
          match pyFloat (t1.filter (fun c => !(c == ','))) with
          | none => none
          | some amtQ =>
            some ⟨slashToDot (md.1 ++ '/' :: md.2 ++ '/' :: year), tt, amtQ.round2,
              if !trans_pattern next && !(reserved.any (fun r => containsSub r next)) then
                " ".toList.intercalate ((pySplit line).drop 2) ++ ' ' :: next
              else " ".toList.intercalate ((pySplit line).drop 2)⟩

/-- Entry extraction for one line, conditioned on the (just updated)
current category. -/
def applyEntries (sm sy ey : List Char) (st : ParseState)
    (line next : List Char) : Option ParseState :=
  match st.trans_type with
  | some TransactionType.CHECK =>
    if check_pattern line then
      (processCheckGroups sm sy ey .CHECK (pySplit line)).map
        (fun ts => { st with transactions := st.transactions ++ ts })
    else some st
  | some tt =>
    if trans_pattern line then
      (processTransLine sm sy ey tt line next).map
        (fun t => { st with transactions := st.transactions ++ [t] })
    else some st
  | none => some st

/-- One iteration of the main loop on a `(line, next_line)` pair: totals
block, header chain, entry extraction; the second component reports the
`break` on the terminal header (which skips entry extraction). -/
def parseStep (sm sy ey : List Char) (st : ParseState)
    (line next : List Char) : Option (ParseState × Bool) :=
  match applyTotals st line with
  | none => none
  | some st1 =>
    if (headerUpdate line st1.trans_type).2 then
      some ({ st1 with trans_type := (headerUpdate line st1.trans_type).1 }, true)
    else
      (applyEntries sm sy ey
        { st1 with trans_type := (headerUpdate line st1.trans_type).1 } line next).map
        (fun st3 => (st3, false))

/-- The body of the `zip(head, tail)` loop, carrying the current line and
the lines after it: when no line follows, the current line has no pair
and the loop is over (the final line of the input is only ever visible as
`next_line`).  Besides the final state the model returns the trace of
lines processed as the current line, purely as instrumentation (it does
not influence the state). -/
def parseLoopAux (sm sy ey : List Char) :
    ParseState → List Char → List (List Char) → Option (ParseState × List (List Char))
  | st, _, [] => some (st, [])
  | st, line, next :: rest =>
    match parseStep sm sy ey st line next with
    | none => none
    | some sb =>
      if sb.2 then some (sb.1, [line])
      else (parseLoopAux sm sy ey sb.1 next rest).map (fun p => (p.1, line :: p.2))

/-- The `for line, next_line in zip(head, tail)` loop over the two `tee`
iterators, `tail` one element ahead: the pairs are the consecutive-line
pairs of the input. -/
def parseLoop (sm sy ey : List Char) (st : ParseState) :
    List (List Char) → Option (ParseState × List (List Char))
  | [] => some (st, [])
  | line :: rest => parseLoopAux sm sy ey st line rest

/-- Period extraction followed by the main loop, from the initial state. -/
def parseStatement (currentYear : List Char) (data : List (List Char)) :
    Option (ParseState × List (List Char)) :=
  match periodExtract currentYear data with
  | (sm, sy, ey) => parseLoop sm sy ey initState data

/-- `round(sum(t.amount for t in transactions if t.type in (CHECK, DEDUCTION)), 2)`. -/
def actualDeductions (ts : List Transaction) : Dec :=
  Dec.round2 ((ts.filter (fun t =>
    match t.type with
    | .CHECK => true
    | .DEDUCTION => true
    | .DEPOSIT => false)).foldl (fun s t => s.add t.amount) Dec.zero)

/-- `round(sum(t.amount for t in transactions if t.type == DEPOSIT), 2)`. -/
def actualDeposits (ts : List Transaction) : Dec :=
  Dec.round2 ((ts.filter (fun t =>
    match t.type with
    | .DEPOSIT => true
    | _ => false)).foldl (fun s t => s.add t.amount) Dec.zero)

/-- The log signals of the reconciliation block: for each side, `none`
when the expected value is exactly `0.0` (no comparison is made at all),
`some true` for the fatal-severity mismatch report, `some false` for the
totals-match info report. -/
structure ReconReport where
  deductionSignal : Option Bool
  depositSignal : Option Bool
deriving DecidableEq, Repr

/-- The reconciliation block run after the pass. -/
def reconcile (st : ParseState) : ReconReport :=
  { deductionSignal :=
      if st.expected_deductions.isZero then none
      else some (!((actualDeductions st.transactions).beq st.expected_deductions))
    depositSignal :=
      if st.expected_deposits.isZero then none
      else some (!((actualDeposits st.transactions).beq st.expected_deposits)) }

/-- `parse_transaction_text(data)`: empty input short-circuits to `[]`
(with a warning); otherwise the final state's transaction list is
returned after the (log-only) reconciliation.  `none` models a raised
exception.  `currentYear` is the clock value the period fallback would
read. -/
def parse_transaction_text (currentYear : List Char) (data : List (List Char)) :
    Option (List Transaction) :=
  if data.isEmpty then some []
  else (parseStatement currentYear data).map (fun p => p.1.transactions)

/-! ## Well-formedness predicates

These decidable predicates express, line-locally, the conditions under
which the crash-prone code paths (check-group unpacking, totals
decoding) succeed; they are used to state the amended propagation-policy
claim. -/

/-- One check quadruple is extractable: the amount token parses as a
float after comma-stripping and the date token splits on `/` into
exactly two parts with an `int`-parsable month. -/
def checkGroupOK (am dt : List Char) : Bool :=
  (pyFloat (am.filter (fun c => !(c == ',')))).isSome &&
    (match splitSlashTwo dt with
     | some md => (pyInt md.1).isSome
     | none => false)

/-- The token list of a check line consists of complete, extractable
quadruples. -/
def checkGroupsOK : List (List Char) → Bool
  | [] => true
  | _ :: am :: dt :: _ :: rest => checkGroupOK am dt && checkGroupsOK rest
  | _ => false

/-- A line that is safe to feed to the check-entry loop. -/
def checkLineOK (l : List Char) : Bool := checkGroupsOK (pySplit l)

/-- A line whose totals decoding succeeds with at least three values
(`float` accepts every token — in particular no trailing-minus token
with a thousands separator — and positions 1 and 2 exist). -/
def totalsLineOK (l : List Char) : Bool :=
  match decodeTotals l with
  | some ts => decide (2 < ts.length)
  | none => false

/-- A usable start month: non-empty, all digits (what the period
extractor in fact produces, including its fallback). -/
def smOK (sm : List Char) : Bool := !sm.isEmpty && sm.all Char.isDigit

/-- A line on which the header chain `break`s: it contains the terminal
header and none of the three category headers (which are tested first in
the `elif` chain). -/
def isTerminalLine (l : List Char) : Bool :=
  !containsSub hDeposits l && !containsSub hChecks l && !containsSub hBanking l &&
    containsSub hDaily l

/-- The prefix of a line sequence up to and including its first
terminal line. -/
def takeThroughTerminal : List (List Char) → List (List Char)
  | [] => []
  | l :: rest => if isTerminalLine l then [l] else l :: takeThroughTerminal rest

/-- The amount invariant a returned transaction satisfies: its value is
an exact multiple of `0.01`, and under the deposit/deduction grammar it
is non-negative (check amounts can be negative, see the counterexample). -/
def amountOK (t : Transaction) : Prop :=
  (∃ n : Int, t.amount.toRat = (n : ℚ) / 100) ∧
    ((t.type = TransactionType.DEPOSIT ∨ t.type = TransactionType.DEDUCTION) →
      0 ≤ t.amount.toRat)

/-- The structural equality of `Transaction.__eq__`: all four fields,
with amounts compared as Python compares floats (by value). -/
def transEq (a b : Transaction) : Bool :=
  decide (a.date = b.date) && decide (a.type = b.type) &&
    a.amount.beq b.amount && decide (a.description = b.description)

/-- Element-wise structural equality of two transaction lists, in order. -/
def listTransEq : List Transaction → List Transaction → Bool
  | [], [] => true
  | a :: as, b :: bs => transEq a b && listTransEq as bs
  | _, _ => false

/-! ## Numeric lemmas -/

theorem pow10_pos : ∀ n, 0 < pow10 n
  | 0 => by simp [pow10]
  | n + 1 => by
    have h := pow10_pos n
    simp only [pow10]
    positivity

theorem pow10_nonneg (n : Nat) : 0 ≤ pow10 n := le_of_lt (pow10_pos n)

theorem Dec.toRat_nonneg {d : Dec} (h : 0 ≤ d.man) : 0 ≤ d.toRat := by
  unfold Dec.toRat
  apply div_nonneg
  · exact_mod_cast h
  · positivity

theorem Dec.toRat_neg_of_man_neg {d : Dec} (h : d.man < 0) : d.toRat < 0 := by
  unfold Dec.toRat
  apply div_neg_of_neg_of_pos
  · exact_mod_cast h
  · positivity

theorem roundHalfEvenInt_nonneg {n m : Int} (hn : 0 ≤ n) (hm : 0 < m) :
    0 ≤ roundHalfEvenInt n m := by
  have hf : 0 ≤ n.fdiv m := Int.fdiv_nonneg hn (le_of_lt hm)
  unfold roundHalfEvenInt
  split
  · exact hf
  · split
    · omega
    · split
      · exact hf
      · omega

theorem Dec.round2_exp (d : Dec) : d.round2.exp = 2 := by
  unfold Dec.round2
  split <;> rfl

theorem Dec.round2_man_nonneg {d : Dec} (h : 0 ≤ d.man) : 0 ≤ d.round2.man := by
  unfold Dec.round2
  split
  · exact mul_nonneg h (pow10_nonneg _)
  · exact roundHalfEvenInt_nonneg h (pow10_pos _)

theorem Dec.round2_toRat_form (d : Dec) : ∃ n : Int, d.round2.toRat = (n : ℚ) / 100 := by
  refine ⟨d.round2.man, ?_⟩
  unfold Dec.toRat
  rw [Dec.round2_exp]
  norm_num

theorem Dec.round2_toRat_nonneg {d : Dec} (h : 0 ≤ d.man) : 0 ≤ d.round2.toRat :=
  Dec.toRat_nonneg (Dec.round2_man_nonneg h)

/-! ## Character and split lemmas -/

theorem beq_false_of_digit_of_not_digit {c d : Char} (hc : c.isDigit = true)
    (hd : d.isDigit = false) : (c == d) = false := by
  apply beq_eq_false_iff_ne.mpr
  intro h
  rw [h, hd] at hc
  exact Bool.false_ne_true hc

theorem isPySpace_eq_false_of_isDigit {c : Char} (hc : c.isDigit = true) :
    isPySpace c = false := by
  simp only [isPySpace, Bool.or_eq_false_iff]
  refine ⟨⟨⟨⟨⟨?_, ?_⟩, ?_⟩, ?_⟩, ?_⟩, ?_⟩ <;>
    exact beq_false_of_digit_of_not_digit hc (by decide)

theorem isPySpace_eq_false_of_amtChar {c : Char} (hc : amtChar c = true) :
    isPySpace c = false := by
  unfold amtChar at hc
  cases hd : c.isDigit with
  | true => exact isPySpace_eq_false_of_isDigit hd
  | false =>
    rw [hd] at hc
    simp only [Bool.false_or, beq_iff_eq] at hc
    rw [hc]
    decide

theorem takeWhile_append_of_all {p : Char → Bool} :
    ∀ {xs : List Char} (ys : List Char), (∀ c ∈ xs, p c = true) →
      (xs ++ ys).takeWhile p = xs ++ ys.takeWhile p
  | [], ys, _ => rfl
  | x :: xs, ys, h => by
    have hx : p x = true := h x (List.mem_cons_self x xs)
    simp only [List.cons_append, List.takeWhile_cons_of_pos hx]
    rw [takeWhile_append_of_all ys (fun c hc => h c (List.mem_cons_of_mem x hc))]

theorem dropWhile_append_of_all {p : Char → Bool} :
    ∀ {xs : List Char} (ys : List Char), (∀ c ∈ xs, p c = true) →
      (xs ++ ys).dropWhile p = ys.dropWhile p
  | [], ys, _ => rfl
  | x :: xs, ys, h => by
    have hx : p x = true := h x (List.mem_cons_self x xs)
    simp only [List.cons_append, List.dropWhile_cons_of_pos hx]
    exact dropWhile_append_of_all ys (fun c hc => h c (List.mem_cons_of_mem x hc))

theorem pySplitAux_append_of_nonspace :
    ∀ {a : List Char} (acc rest : List Char), (∀ c ∈ a, isPySpace c = false) →
      pySplitAux acc (a ++ rest) = pySplitAux (a.reverse ++ acc) rest
  | [], acc, rest, _ => by simp
  | c :: a, acc, rest, h => by
    have hc : isPySpace c = false := h c (List.mem_cons_self c a)
    have h1 : pySplitAux acc ((c :: a) ++ rest) = pySplitAux (c :: acc) (a ++ rest) := by
      simp only [List.cons_append, pySplitAux, hc, Bool.false_eq_true, if_false]
      rfl
    rw [h1, pySplitAux_append_of_nonspace (c :: acc) rest
      (fun x hx => h x (List.mem_cons_of_mem c hx))]
    simp

theorem pySplit_token_space {t : List Char} (rest : List Char)
    (ht : ∀ c ∈ t, isPySpace c = false) (hne : t ≠ []) :
    pySplit (t ++ ' ' :: rest) = t :: pySplit rest := by
  unfold pySplit
  rw [pySplitAux_append_of_nonspace [] (' ' :: rest) ht]
  have hrev : t.reverse ≠ [] := by
    intro h
    exact hne (by simpa using congrArg List.reverse h)
  obtain ⟨x, xs, hx⟩ := List.exists_cons_of_ne_nil hrev
  rw [List.append_nil, hx]
  have h1 : pySplitAux (x :: xs) (' ' :: rest) = (x :: xs).reverse :: pySplitAux [] rest := by
    simp +decide [pySplitAux]
  rw [h1, ← hx, List.reverse_reverse]

theorem splitOnCharAux_not_sep :
    ∀ {a : List Char} (sep : Char) (acc rest : List Char),
      (∀ c ∈ a, (c == sep) = false) →
      splitOnCharAux sep acc (a ++ rest) = splitOnCharAux sep (a.reverse ++ acc) rest
  | [], sep, acc, rest, _ => by simp
  | c :: a, sep, acc, rest, h => by
    have hc : (c == sep) = false := h c (List.mem_cons_self c a)
    have h1 : splitOnCharAux sep acc ((c :: a) ++ rest) =
        splitOnCharAux sep (c :: acc) (a ++ rest) := by
      simp only [List.cons_append, splitOnCharAux, hc, Bool.false_eq_true, if_false]
      rfl
    rw [h1, splitOnCharAux_not_sep sep (c :: acc) rest
      (fun x hx => h x (List.mem_cons_of_mem c hx))]
    simp

theorem splitSlashTwo_mmdd {m1 m2 d1 d2 : Char} (h1 : m1.isDigit = true)
    (h2 : m2.isDigit = true) (h3 : d1.isDigit = true) (h4 : d2.isDigit = true) :
    splitSlashTwo [m1, m2, '/', d1, d2] = some ([m1, m2], [d1, d2]) := by
  have e1 : (m1 == '/') = false := beq_false_of_digit_of_not_digit h1 (by decide)
  have e2 : (m2 == '/') = false := beq_false_of_digit_of_not_digit h2 (by decide)
  have e3 : (d1 == '/') = false := beq_false_of_digit_of_not_digit h3 (by decide)
  have e4 : (d2 == '/') = false := beq_false_of_digit_of_not_digit h4 (by decide)
  unfold splitSlashTwo splitOnChar
  simp [splitOnCharAux, e1, e2, e3, e4]

/-! ## Numeral-parsing lemmas -/

theorem digitsNat?_of_digits {s : List Char} (hne : s ≠ [])
    (h : ∀ c ∈ s, c.isDigit = true) : digitsNat? s = some (digitsToNat s) := by
  have h1 : s.isEmpty = false := by
    cases s with
    | nil => exact absurd rfl hne
    | cons c r => rfl
  have h2 : s.all Char.isDigit = true := List.all_eq_true.mpr h
  simp [digitsNat?, h1, h2]

theorem pyInt_digits {c : Char} {r : List Char}
    (h : ∀ x ∈ c :: r, x.isDigit = true) :
    pyInt (c :: r) = some ((digitsToNat (c :: r) : Int)) := by
  have hc : c.isDigit = true := h c (List.mem_cons_self c r)
  have e1 : (c == '-') = false := beq_false_of_digit_of_not_digit hc (by decide)
  have e2 : (c == '+') = false := beq_false_of_digit_of_not_digit hc (by decide)
  simp [pyInt, e1, e2, digitsNat?_of_digits (by simp) h]

theorem parseUFloat_frac2 {ipart : List Char} {a b : Char}
    (hip : ∀ c ∈ ipart, c.isDigit = true) (ha : a.isDigit = true)
    (hb : b.isDigit = true) :
    parseUFloat (ipart ++ '.' :: [a, b]) =
      some ⟨(digitsToNat ipart : Int) * pow10 2 + (digitsToNat [a, b] : Int), 2⟩ := by
  have hdot : Char.isDigit '.' = false := by decide
  have htk : (ipart ++ '.' :: [a, b]).takeWhile Char.isDigit = ipart := by
    rw [takeWhile_append_of_all _ hip, List.takeWhile_cons_of_neg (by simp [hdot])]
    simp
  have hdp : (ipart ++ '.' :: [a, b]).dropWhile Char.isDigit = '.' :: [a, b] := by
    rw [dropWhile_append_of_all _ hip, List.dropWhile_cons_of_neg (by simp [hdot])]
  simp only [parseUFloat, htk, hdp]
  simp [ha, hb]

theorem pyFloat_cons_of_ne_sign {c : Char} {r : List Char}
    (h1 : (c == '-') = false) (h2 : (c == '+') = false) :
    pyFloat (c :: r) = parseUFloat (c :: r) := by
  simp [pyFloat, h1, h2]

theorem pyFloat_amount_token {run : List Char} {a b : Char}
    (hrun : ∀ c ∈ run, c.isDigit = true) (ha : a.isDigit = true)
    (hb : b.isDigit = true) :
    pyFloat (run ++ '.' :: [a, b]) =
      some ⟨(digitsToNat run : Int) * pow10 2 + (digitsToNat [a, b] : Int), 2⟩ := by
  cases run with
  | nil =>
    rw [List.nil_append, pyFloat_cons_of_ne_sign (by decide) (by decide)]
    exact parseUFloat_frac2 hrun ha hb
  | cons c r =>
    have hc : c.isDigit = true := hrun c (List.mem_cons_self c r)
    rw [List.cons_append,
      pyFloat_cons_of_ne_sign (beq_false_of_digit_of_not_digit hc (by decide))
        (beq_false_of_digit_of_not_digit hc (by decide)),
      ← List.cons_append]
    exact parseUFloat_frac2 hrun ha hb

theorem filter_comma_amount {run : List Char} (a b : Char)
    (ha : a.isDigit = true) (hb : b.isDigit = true) :
    (run ++ '.' :: [a, b]).filter (fun c => !(c == ',')) =
      (run.filter (fun c => !(c == ','))) ++ '.' :: [a, b] := by
  rw [List.filter_append]
  congr 1
  have h1 : (!('.' == ',')) = true := by decide
  have h2 : (!(a == ',')) = true := by
    rw [beq_false_of_digit_of_not_digit ha (by decide)]
    rfl
  have h3 : (!(b == ',')) = true := by
    rw [beq_false_of_digit_of_not_digit hb (by decide)]
    rfl
  simp [h1, h2, h3]

theorem filter_comma_digits {run : List Char} (hrun : ∀ c ∈ run, amtChar c = true) :
    ∀ c ∈ run.filter (fun c => !(c == ',')), c.isDigit = true := by
  intro c hcmem
  obtain ⟨hm, hp⟩ := List.mem_filter.mp hcmem
  have hamt := hrun c hm
  unfold amtChar at hamt
  cases hd : c.isDigit with
  | true => rfl
  | false =>
    rw [hd, Bool.false_or] at hamt
    rw [hamt] at hp
    simp at hp

/-! ## Inversion of the deposit/deduction line grammar -/

theorem trans_pattern_inv {l : List Char} (h : trans_pattern l = true) :
    ∃ m1 m2 d1 d2 run a b tail,
      l = m1 :: m2 :: '/' :: d1 :: d2 :: ' ' :: (run ++ '.' :: a :: b :: ' ' :: tail) ∧
      m1.isDigit = true ∧ m2.isDigit = true ∧ d1.isDigit = true ∧ d2.isDigit = true ∧
      a.isDigit = true ∧ b.isDigit = true ∧ (∀ c ∈ run, amtChar c = true) := by
  cases l with
  | nil => simp [trans_pattern] at h
  | cons m1 l1 =>
  cases l1 with
  | nil => simp [trans_pattern] at h
  | cons m2 l2 =>
  cases l2 with
  | nil => simp [trans_pattern] at h
  | cons sl l3 =>
  cases l3 with
  | nil => simp [trans_pattern] at h
  | cons d1 l4 =>
  cases l4 with
  | nil => simp [trans_pattern] at h
  | cons d2 l5 =>
  cases l5 with
  | nil => simp [trans_pattern] at h
  | cons sp rest =>
  simp only [trans_pattern, Bool.and_eq_true, beq_iff_eq] at h
  obtain ⟨⟨⟨⟨⟨⟨hm1, hm2⟩, hsl⟩, hd1⟩, hd2⟩, hsp⟩, hmatch⟩ := h
  subst hsl
  subst hsp
  generalize hdw : rest.dropWhile amtChar = dw at hmatch
  cases dw with
  | nil => simp at hmatch
  | cons dot t1 =>
  cases t1 with
  | nil => simp at hmatch
  | cons a t2 =>
  cases t2 with
  | nil => simp at hmatch
  | cons b t3 =>
  cases t3 with
  | nil => simp at hmatch
  | cons sp2 tail =>
  simp only [Bool.and_eq_true, beq_iff_eq] at hmatch
  obtain ⟨⟨⟨⟨hdot, ha⟩, hb⟩, hsp2⟩, hshape⟩ := hmatch
  subst hdot
  subst hsp2
  refine ⟨m1, m2, d1, d2, rest.takeWhile amtChar, a, b, tail, ?_, hm1, hm2, hd1, hd2,
    ha, hb, fun c hc => List.mem_takeWhile_imp hc⟩
  have e := List.takeWhile_append_dropWhile (p := amtChar) (l := rest)
  rw [hdw] at e
  rw [e]

theorem trans_pattern_pySplit {l : List Char} (h : trans_pattern l = true) :
    ∃ m1 m2 d1 d2 run a b tail,
      m1.isDigit = true ∧ m2.isDigit = true ∧ d1.isDigit = true ∧ d2.isDigit = true ∧
      a.isDigit = true ∧ b.isDigit = true ∧ (∀ c ∈ run, amtChar c = true) ∧
      pySplit l = [m1, m2, '/', d1, d2] :: (run ++ '.' :: [a, b]) :: pySplit tail := by
  obtain ⟨m1, m2, d1, d2, run, a, b, tail, hl, hm1, hm2, hd1, hd2, ha, hb, hrun⟩ :=
    trans_pattern_inv h
  refine ⟨m1, m2, d1, d2, run, a, b, tail, hm1, hm2, hd1, hd2, ha, hb, hrun, ?_⟩
  subst hl
  have e1 : m1 :: m2 :: '/' :: d1 :: d2 :: ' ' :: (run ++ '.' :: a :: b :: ' ' :: tail)
      = [m1, m2, '/', d1, d2] ++ ' ' :: ((run ++ '.' :: [a, b]) ++ ' ' :: tail) := by
    simp
  have h5 : ∀ c ∈ [m1, m2, '/', d1, d2], isPySpace c = false := by
    intro c hc
    simp only [List.mem_cons, List.not_mem_nil, or_false] at hc
    rcases hc with rfl | rfl | rfl | rfl | rfl
    · exact isPySpace_eq_false_of_isDigit hm1
    · exact isPySpace_eq_false_of_isDigit hm2
    · decide
    · exact isPySpace_eq_false_of_isDigit hd1
    · exact isPySpace_eq_false_of_isDigit hd2
  have htok1 : ∀ c ∈ run ++ '.' :: [a, b], isPySpace c = false := by
    intro c hc
    rcases List.mem_append.mp hc with hc | hc
    · exact isPySpace_eq_false_of_amtChar (hrun c hc)
    · simp only [List.mem_cons, List.not_mem_nil, or_false] at hc
      rcases hc with rfl | rfl | rfl
      · decide
      · exact isPySpace_eq_false_of_isDigit ha
      · exact isPySpace_eq_false_of_isDigit hb
  rw [e1, pySplit_token_space _ h5 (by simp),
    pySplit_token_space _ htok1 (by simp)]

/-! ## Entry-extraction lemmas -/

theorem pyInt_of_smOK {sm : List Char} (hsm : smOK sm = true) :
    ∃ n, pyInt sm = some n := by
  unfold smOK at hsm
  rw [Bool.and_eq_true] at hsm
  obtain ⟨hne, hall⟩ := hsm
  cases sm with
  | nil => simp at hne
  | cons c r =>
    exact ⟨_, pyInt_digits (List.all_eq_true.mp hall)⟩

theorem resolveYear_of_digits (sy ey : List Char) {sm : List Char} {m1 m2 : Char}
    (hsm : smOK sm = true) (h1 : m1.isDigit = true) (h2 : m2.isDigit = true) :
    ∃ y, resolveYear sm sy ey [m1, m2] = some y := by
  unfold resolveYear
  split
  · have hm : pyInt [m1, m2] = some ((digitsToNat [m1, m2] : Int)) := by
      apply pyInt_digits
      intro x hx
      simp only [List.mem_cons, List.not_mem_nil, or_false] at hx
      rcases hx with rfl | rfl
      · exact h1
      · exact h2
    obtain ⟨n, hn⟩ := pyInt_of_smOK hsm
    rw [hm, hn]
    exact ⟨_, rfl⟩
  · exact ⟨sy, rfl⟩

theorem processTransLine_some {sm sy ey : List Char} (tt : TransactionType)
    {line : List Char} (next : List Char) (hsm : smOK sm = true)
    (hp : trans_pattern line = true) :
    ∃ t, processTransLine sm sy ey tt line next = some t := by
  obtain ⟨m1, m2, d1, d2, run, a, b, tail, hm1, hm2, hd1, hd2, ha, hb, hrun, hsplit⟩ :=
    trans_pattern_pySplit hp
  obtain ⟨y, hy⟩ := resolveYear_of_digits sy ey hsm hm1 hm2
  simp only [processTransLine, hsplit, List.get?_cons_zero, List.get?_cons_succ,
    splitSlashTwo_mmdd hm1 hm2 hd1 hd2, hy, filter_comma_amount a b ha hb,
    pyFloat_amount_token (filter_comma_digits hrun) ha hb]
  exact ⟨_, rfl⟩

theorem processTransLine_props {sm sy ey : List Char} {tt : TransactionType}
    {line next : List Char} {t : Transaction} (hp : trans_pattern line = true)
    (h : processTransLine sm sy ey tt line next = some t) :
    t.type = tt ∧ 0 ≤ t.amount.man ∧ t.amount.exp = 2 ∧
      (∃ desc0 : List Char,
        t.description = (if !trans_pattern next &&
            !(reserved.any (fun r => containsSub r next)) then
          desc0 ++ ' ' :: next else desc0)) := by
  obtain ⟨m1, m2, d1, d2, run, a, b, tail, hm1, hm2, hd1, hd2, ha, hb, hrun, hsplit⟩ :=
    trans_pattern_pySplit hp
  simp only [processTransLine, hsplit, List.get?_cons_zero, List.get?_cons_succ,
    splitSlashTwo_mmdd hm1 hm2 hd1 hd2, filter_comma_amount a b ha hb,
    pyFloat_amount_token (filter_comma_digits hrun) ha hb] at h
  split at h
  · exact absurd h (by simp)
  · rw [Option.some_inj] at h
    subst h
    refine ⟨rfl, ?_, Dec.round2_exp _, ⟨_, rfl⟩⟩
    exact Dec.round2_man_nonneg
      (add_nonneg (mul_nonneg (Int.natCast_nonneg _) (pow10_nonneg 2))
        (Int.natCast_nonneg _))

theorem resolveYear_some_of_pyInt (sy ey : List Char) {sm m : List Char}
    (hsm : smOK sm = true) (hm : (pyInt m).isSome = true) :
    ∃ y, resolveYear sm sy ey m = some y := by
  unfold resolveYear
  split
  · obtain ⟨mi, hmi⟩ := Option.isSome_iff_exists.mp hm
    obtain ⟨si, hsi⟩ := pyInt_of_smOK hsm
    rw [hmi, hsi]
    exact ⟨_, rfl⟩
  · exact ⟨sy, rfl⟩

theorem processCheckGroups_some (sm sy ey : List Char) (tt : TransactionType)
    (hsm : smOK sm = true) :
    ∀ toks, checkGroupsOK toks = true →
      ∃ ts, processCheckGroups sm sy ey tt toks = some ts
  | [], _ => ⟨[], rfl⟩
  | [_], h => by simp [checkGroupsOK] at h
  | [_, _], h => by simp [checkGroupsOK] at h
  | [_, _, _], h => by simp [checkGroupsOK] at h
  | ck :: am :: dt :: rf :: rest, h => by
    simp only [checkGroupsOK, Bool.and_eq_true] at h
    obtain ⟨hg, hrest⟩ := h
    unfold checkGroupOK at hg
    rw [Bool.and_eq_true] at hg
    obtain ⟨hf, hdt⟩ := hg
    obtain ⟨amtQ, hamt⟩ := Option.isSome_iff_exists.mp hf
    obtain ⟨ts', hts'⟩ := processCheckGroups_some sm sy ey tt hsm rest hrest
    rcases (splitSlashTwo dt).eq_none_or_eq_some with hmd | ⟨md, hmd⟩
    · rw [hmd] at hdt
      simp at hdt
    · rw [hmd] at hdt
      simp only at hdt
      obtain ⟨y, hy⟩ := resolveYear_some_of_pyInt sy ey hsm hdt
      simp only [processCheckGroups, hamt, hts', hmd, hy]
      exact ⟨_, rfl⟩

theorem processCheckGroups_props (sm sy ey : List Char) (tt : TransactionType) :
    ∀ toks ts, processCheckGroups sm sy ey tt toks = some ts →
      ∀ t ∈ ts, t.type = tt ∧ t.amount.exp = 2
  | [], ts, h, t, ht => by
    rw [show processCheckGroups sm sy ey tt [] = some [] from rfl,
      Option.some_inj] at h
    subst h
    simp at ht
  | [_], ts, h, t, ht => by simp [processCheckGroups] at h
  | [_, _], ts, h, t, ht => by simp [processCheckGroups] at h
  | [_, _, _], ts, h, t, ht => by simp [processCheckGroups] at h
  | ck :: am :: dt :: rf :: rest, ts, h, t, ht => by
    simp only [processCheckGroups] at h
    rcases (pyFloat (am.filter (fun c => !(c == ',')))).eq_none_or_eq_some with hf | ⟨amtQ, hf⟩
    · rw [hf] at h
      simp at h
    rw [hf] at h
    simp only at h
    rcases (splitSlashTwo dt).eq_none_or_eq_some with hmd | ⟨md, hmd⟩
    · rw [hmd] at h
      simp at h
    rw [hmd] at h
    simp only at h
    rcases (resolveYear sm sy ey md.1).eq_none_or_eq_some with hy | ⟨year, hy⟩
    · rw [hy] at h
      simp at h
    rw [hy] at h
    simp only at h
    rcases (processCheckGroups sm sy ey tt rest).eq_none_or_eq_some with hrec | ⟨ts', hrec⟩
    · rw [hrec] at h
      simp at h
    rw [hrec] at h
    simp only [Option.some_inj] at h
    subst h
    rcases List.mem_cons.mp ht with rfl | ht'
    · exact ⟨rfl, Dec.round2_exp _⟩
    · exact processCheckGroups_props sm sy ey tt rest ts' hrec t ht'

/-! ## Step-level lemmas -/

theorem Dec.toRat_exp2 {d : Dec} (h : d.exp = 2) : d.toRat = (d.man : ℚ) / 100 := by
  unfold Dec.toRat
  rw [h]
  norm_num

theorem applyTotals_some {st : ParseState} {l : List Char}
    (h : totals_pattern l = true → totalsLineOK l = true) :
    ∃ st1, applyTotals st l = some st1 := by
  unfold applyTotals
  split
  · rename_i hguard
    rw [Bool.and_eq_true] at hguard
    have hok := h hguard.2
    unfold totalsLineOK at hok
    rcases (decodeTotals l).eq_none_or_eq_some with hdec | ⟨ts, hdec⟩
    · rw [hdec] at hok
      simp at hok
    · rw [hdec] at hok
      simp only [decide_eq_true_eq] at hok
      have h1 : ∃ dep, ts.get? 1 = some dep := by
        rw [← Option.ne_none_iff_exists']
        rw [Ne, List.get?_eq_none]
        omega
      have h2 : ∃ ded, ts.get? 2 = some ded := by
        rw [← Option.ne_none_iff_exists']
        rw [Ne, List.get?_eq_none]
        omega
      obtain ⟨dep, h1⟩ := h1
      obtain ⟨ded, h2⟩ := h2
      rw [hdec]
      simp only
      rw [h1]
      simp only
      rw [h2]
      exact ⟨_, rfl⟩
  · exact ⟨st, rfl⟩

theorem applyTotals_fields {st st1 : ParseState} {l : List Char}
    (h : applyTotals st l = some st1) :
    st1.trans_type = st.trans_type ∧ st1.transactions = st.transactions := by
  unfold applyTotals at h
  split at h
  · rcases (decodeTotals l).eq_none_or_eq_some with hdec | ⟨ts, hdec⟩ <;> rw [hdec] at h
    · simp at h
    simp only at h
    rcases (ts.get? 1).eq_none_or_eq_some with h1 | ⟨dep, h1⟩ <;> rw [h1] at h
    · simp at h
    simp only at h
    rcases (ts.get? 2).eq_none_or_eq_some with h2 | ⟨ded, h2⟩ <;> rw [h2] at h
    · simp at h
    simp only [Option.some_inj] at h
    subst h
    exact ⟨rfl, rfl⟩
  · rw [Option.some_inj] at h
    subst h
    exact ⟨rfl, rfl⟩

theorem applyTotals_frozen {st st1 : ParseState} {l : List Char}
    (h : applyTotals st l = some st1)
    (hne : st.expected_deductions.isZero = false) :
    st1.expected_deposits = st.expected_deposits ∧
      st1.expected_deductions = st.expected_deductions := by
  unfold applyTotals at h
  rw [hne] at h
  simp only [Bool.false_and, Bool.false_eq_true, if_false, Option.some_inj] at h
  subst h
  exact ⟨rfl, rfl⟩

theorem applyTotals_no_pattern {st st1 : ParseState} {l : List Char}
    (h : applyTotals st l = some st1) (hp : totals_pattern l = false) : st1 = st := by
  unfold applyTotals at h
  rw [hp] at h
  simp only [Bool.and_false, Bool.false_eq_true, if_false, Option.some_inj] at h
  exact h.symm

theorem applyTotals_set {st st1 : ParseState} {l : List Char} {ts : List Dec}
    {dep ded : Dec} (h0 : st.expected_deductions.isZero = true)
    (hp : totals_pattern l = true) (hdec : decodeTotals l = some ts)
    (h1 : ts.get? 1 = some dep) (h2 : ts.get? 2 = some ded)
    (h : applyTotals st l = some st1) :
    st1.expected_deposits = dep ∧ st1.expected_deductions = ded := by
  unfold applyTotals at h
  rw [h0, hp, hdec] at h
  simp only [Bool.and_self, if_true] at h
  rw [h1, h2] at h
  simp only [Option.some_inj] at h
  subst h
  exact ⟨rfl, rfl⟩

theorem applyEntries_some {sm sy ey : List Char} {st : ParseState}
    {l n : List Char} (hsm : smOK sm = true)
    (hck : check_pattern l = true → checkLineOK l = true) :
    ∃ st3, applyEntries sm sy ey st l n = some st3 := by
  unfold applyEntries
  cases htt : st.trans_type with
  | none => exact ⟨st, rfl⟩
  | some tt =>
    cases tt with
    | CHECK =>
      simp only
      split
      · rename_i hp
        obtain ⟨ts, hts⟩ :=
          processCheckGroups_some sm sy ey .CHECK hsm (pySplit l) (hck hp)
        rw [hts]
        exact ⟨_, rfl⟩
      · exact ⟨st, rfl⟩
    | DEDUCTION =>
      simp only
      split
      · rename_i hp
        obtain ⟨t, ht⟩ := processTransLine_some .DEDUCTION n hsm hp
        rw [ht]
        exact ⟨_, rfl⟩
      · exact ⟨st, rfl⟩
    | DEPOSIT =>
      simp only
      split
      · rename_i hp
        obtain ⟨t, ht⟩ := processTransLine_some .DEPOSIT n hsm hp
        rw [ht]
        exact ⟨_, rfl⟩
      · exact ⟨st, rfl⟩

theorem applyEntries_inv {sm sy ey : List Char} {st st3 : ParseState}
    {l n : List Char} (h : applyEntries sm sy ey st l n = some st3) :
    st3.trans_type = st.trans_type ∧
      st3.expected_deposits = st.expected_deposits ∧
      st3.expected_deductions = st.expected_deductions ∧
      ∃ new, st3.transactions = st.transactions ++ new ∧
        ∀ t ∈ new, (∃ nz : Int, t.amount.toRat = (nz : ℚ) / 100) ∧
          ((t.type = TransactionType.DEPOSIT ∨ t.type = TransactionType.DEDUCTION) →
            0 ≤ t.amount.toRat) := by
  unfold applyEntries at h
  cases htt : st.trans_type with
  | none =>
    rw [htt] at h
    simp only [Option.some_inj] at h
    subst h
    exact ⟨htt, rfl, rfl, [], by simp, by simp⟩
  | some tt =>
    rw [htt] at h
    cases tt with
    | CHECK =>
      try simp only at h
      split at h
      · rename_i hp
        rcases (processCheckGroups sm sy ey .CHECK (pySplit l)).eq_none_or_eq_some with
          hts | ⟨ts, hts⟩ <;> rw [hts] at h
        · simp at h
        · simp only [Option.map_some', Option.some_inj] at h
          subst h
          refine ⟨rfl, rfl, rfl, ts, rfl, ?_⟩
          intro t ht
          obtain ⟨hty, hexp⟩ := processCheckGroups_props sm sy ey .CHECK _ _ hts t ht
          refine ⟨⟨t.amount.man, Dec.toRat_exp2 hexp⟩, ?_⟩
          intro hor
          rcases hor with hd | hd <;> rw [hty] at hd <;> cases hd
      · rw [Option.some_inj] at h
        subst h
        exact ⟨htt, rfl, rfl, [], by simp, by simp⟩
    | DEDUCTION =>
      try simp only at h
      split at h
      · rename_i hp
        rcases (processTransLine sm sy ey .DEDUCTION l n).eq_none_or_eq_some with
          ht | ⟨t, ht⟩ <;> rw [ht] at h
        · simp at h
        · simp only [Option.map_some', Option.some_inj] at h
          subst h
          refine ⟨rfl, rfl, rfl, [t], rfl, ?_⟩
          intro u hu
          rw [List.mem_singleton] at hu
          subst hu
          obtain ⟨hty, hman, hexp, _⟩ := processTransLine_props hp ht
          exact ⟨⟨u.amount.man, Dec.toRat_exp2 hexp⟩, fun _ => Dec.toRat_nonneg hman⟩
      · rw [Option.some_inj] at h
        subst h
        exact ⟨htt, rfl, rfl, [], by simp, by simp⟩
    | DEPOSIT =>
      try simp only at h
      split at h
      · rename_i hp
        rcases (processTransLine sm sy ey .DEPOSIT l n).eq_none_or_eq_some with
          ht | ⟨t, ht⟩ <;> rw [ht] at h
        · simp at h
        · simp only [Option.map_some', Option.some_inj] at h
          subst h
          refine ⟨rfl, rfl, rfl, [t], rfl, ?_⟩
          intro u hu
          rw [List.mem_singleton] at hu
          subst hu
          obtain ⟨hty, hman, hexp, _⟩ := processTransLine_props hp ht
          exact ⟨⟨u.amount.man, Dec.toRat_exp2 hexp⟩, fun _ => Dec.toRat_nonneg hman⟩
      · rw [Option.some_inj] at h
        subst h
        exact ⟨htt, rfl, rfl, [], by simp, by simp⟩

theorem headerUpdate_snd (l : List Char) (cur : Option TransactionType) :
    (headerUpdate l cur).2 = isTerminalLine l := by
  unfold headerUpdate isTerminalLine
  cases containsSub hDeposits l <;> cases containsSub hChecks l <;>
    cases containsSub hBanking l <;> cases containsSub hDaily l <;> simp

theorem parseStep_cases {sm sy ey : List Char} {st : ParseState} {l n : List Char}
    {r : ParseState × Bool} (h : parseStep sm sy ey st l n = some r) :
    ∃ st1, applyTotals st l = some st1 ∧
      ((isTerminalLine l = true ∧
          r = ({ st1 with trans_type := (headerUpdate l st1.trans_type).1 }, true)) ∨
       (isTerminalLine l = false ∧
          ∃ st3, applyEntries sm sy ey
              { st1 with trans_type := (headerUpdate l st1.trans_type).1 } l n = some st3 ∧
            r = (st3, false))) := by
  unfold parseStep at h
  rcases (applyTotals st l).eq_none_or_eq_some with h1 | ⟨st1, h1⟩ <;> rw [h1] at h
  · simp at h
  refine ⟨st1, h1, ?_⟩
  try simp only at h
  rw [headerUpdate_snd] at h
  cases hterm : isTerminalLine l <;> rw [hterm] at h
  · simp only [Bool.false_eq_true, if_false] at h
    rcases (applyEntries sm sy ey
        { st1 with trans_type := (headerUpdate l st1.trans_type).1 } l n).eq_none_or_eq_some
      with h3 | ⟨st3, h3⟩ <;> rw [h3] at h
    · simp at h
    · simp only [Option.map_some', Option.some_inj] at h
      exact Or.inr ⟨rfl, st3, h3, h.symm⟩
  · simp only [if_true] at h
    rw [Option.some_inj] at h
    exact Or.inl ⟨rfl, h.symm⟩

theorem parseStep_some {sm sy ey : List Char} (st : ParseState) (l n : List Char)
    (hsm : smOK sm = true) (hck : check_pattern l = true → checkLineOK l = true)
    (htot : totals_pattern l = true → totalsLineOK l = true) :
    ∃ r, parseStep sm sy ey st l n = some r := by
  obtain ⟨st1, h1⟩ := applyTotals_some htot
  unfold parseStep
  rw [h1]
  simp only
  split
  · exact ⟨_, rfl⟩
  · obtain ⟨st3, h3⟩ := applyEntries_some hsm hck
    rw [h3]
    exact ⟨_, rfl⟩

theorem parseStep_type {sm sy ey : List Char} {st st' : ParseState} {l n : List Char}
    {brk : Bool} (h : parseStep sm sy ey st l n = some (st', brk)) :
    st'.trans_type = (headerUpdate l st.trans_type).1 := by
  obtain ⟨st1, h1, hc⟩ := parseStep_cases h
  obtain ⟨hty, _⟩ := applyTotals_fields h1
  rcases hc with ⟨_, hr⟩ | ⟨_, st3, h3, hr⟩
  · rw [Prod.mk.injEq] at hr
    rw [hr.1, hty]
  · rw [Prod.mk.injEq] at hr
    obtain ⟨hty3, _⟩ := applyEntries_inv h3
    rw [hr.1, hty3, hty]

theorem parseStep_brk {sm sy ey : List Char} {st st' : ParseState} {l n : List Char}
    {brk : Bool} (h : parseStep sm sy ey st l n = some (st', brk)) :
    brk = isTerminalLine l := by
  obtain ⟨st1, h1, hc⟩ := parseStep_cases h
  rcases hc with ⟨hterm, hr⟩ | ⟨hterm, st3, h3, hr⟩ <;> rw [Prod.mk.injEq] at hr
  · rw [hr.2, hterm]
  · rw [hr.2, hterm]

theorem parseStep_break_no_entry {sm sy ey : List Char} {st st' : ParseState}
    {l n : List Char} {brk : Bool} (h : parseStep sm sy ey st l n = some (st', brk))
    (hb : brk = true) : st'.transactions = st.transactions := by
  obtain ⟨st1, h1, hc⟩ := parseStep_cases h
  obtain ⟨_, htr⟩ := applyTotals_fields h1
  rcases hc with ⟨hterm, hr⟩ | ⟨hterm, st3, h3, hr⟩ <;> rw [Prod.mk.injEq] at hr
  · rw [hr.1]
    exact htr
  · rw [hb] at hr
    exact absurd hr.2.symm (by simp)

theorem parseStep_new {sm sy ey : List Char} {st st' : ParseState} {l n : List Char}
    {brk : Bool} (h : parseStep sm sy ey st l n = some (st', brk)) :
    ∃ new, st'.transactions = st.transactions ++ new ∧ ∀ t ∈ new, amountOK t := by
  obtain ⟨st1, h1, hc⟩ := parseStep_cases h
  obtain ⟨_, htr⟩ := applyTotals_fields h1
  rcases hc with ⟨hterm, hr⟩ | ⟨hterm, st3, h3, hr⟩ <;> rw [Prod.mk.injEq] at hr
  · refine ⟨[], ?_, by simp⟩
    rw [hr.1]
    simp [htr]
  · obtain ⟨_, _, _, new, hnew, hP⟩ := applyEntries_inv h3
    refine ⟨new, ?_, hP⟩
    rw [hr.1, hnew]
    simp [htr]

theorem parseStep_expected_frozen {sm sy ey : List Char} {st st' : ParseState}
    {l n : List Char} {brk : Bool} (h : parseStep sm sy ey st l n = some (st', brk))
    (hne : st.expected_deductions.isZero = false) :
    st'.expected_deposits = st.expected_deposits ∧
      st'.expected_deductions = st.expected_deductions := by
  obtain ⟨st1, h1, hc⟩ := parseStep_cases h
  obtain ⟨he1, he2⟩ := applyTotals_frozen h1 hne
  rcases hc with ⟨hterm, hr⟩ | ⟨hterm, st3, h3, hr⟩ <;> rw [Prod.mk.injEq] at hr
  · rw [hr.1]
    exact ⟨he1, he2⟩
  · obtain ⟨_, hd1, hd2, _⟩ := applyEntries_inv h3
    rw [hr.1, hd1, hd2]
    exact ⟨he1, he2⟩

theorem parseStep_no_totals {sm sy ey : List Char} {st st' : ParseState}
    {l n : List Char} {brk : Bool} (h : parseStep sm sy ey st l n = some (st', brk))
    (hp : totals_pattern l = false) :
    st'.expected_deposits = st.expected_deposits ∧
      st'.expected_deductions = st.expected_deductions := by
  obtain ⟨st1, h1, hc⟩ := parseStep_cases h
  have hst1 : st1 = st := applyTotals_no_pattern h1 hp
  subst hst1
  rcases hc with ⟨hterm, hr⟩ | ⟨hterm, st3, h3, hr⟩ <;> rw [Prod.mk.injEq] at hr
  · rw [hr.1]
    exact ⟨rfl, rfl⟩
  · obtain ⟨_, hd1, hd2, _⟩ := applyEntries_inv h3
    rw [hr.1, hd1, hd2]
    exact ⟨rfl, rfl⟩

theorem parseStep_totals_set {sm sy ey : List Char} {st st' : ParseState}
    {l n : List Char} {brk : Bool} {ts : List Dec} {dep ded : Dec}
    (h : parseStep sm sy ey st l n = some (st', brk))
    (h0 : st.expected_deductions.isZero = true) (hp : totals_pattern l = true)
    (hdec : decodeTotals l = some ts) (h1 : ts.get? 1 = some dep)
    (h2 : ts.get? 2 = some ded) :
    st'.expected_deposits = dep ∧ st'.expected_deductions = ded := by
  obtain ⟨st1, hat, hc⟩ := parseStep_cases h
  obtain ⟨he1, he2⟩ := applyTotals_set h0 hp hdec h1 h2 hat
  rcases hc with ⟨hterm, hr⟩ | ⟨hterm, st3, h3, hr⟩ <;> rw [Prod.mk.injEq] at hr
  · rw [hr.1]
    exact ⟨he1, he2⟩
  · obtain ⟨_, hd1, hd2, _⟩ := applyEntries_inv h3
    rw [hr.1, hd1, hd2]
    exact ⟨he1, he2⟩

/-! ## Loop-level lemmas -/

theorem parseLoopAux_some (sm sy ey : List Char) (hsm : smOK sm = true) :
    ∀ (ls : List (List Char)) (st : ParseState) (line : List Char),
      (check_pattern line = true → checkLineOK line = true) →
      (totals_pattern line = true → totalsLineOK line = true) →
      (∀ l ∈ ls, check_pattern l = true → checkLineOK l = true) →
      (∀ l ∈ ls, totals_pattern l = true → totalsLineOK l = true) →
      ∃ r, parseLoopAux sm sy ey st line ls = some r
  | [], st, line, _, _, _, _ => ⟨(st, []), rfl⟩
  | next :: rest, st, line, hck, htot, hcks, htots => by
    obtain ⟨sb, hsb⟩ := parseStep_some st line next hsm hck htot
    unfold parseLoopAux
    rw [hsb]
    simp only
    split
    · exact ⟨_, rfl⟩
    · obtain ⟨r, hr⟩ := parseLoopAux_some sm sy ey hsm rest sb.1 next
        (hcks next (List.mem_cons_self next rest))
        (htots next (List.mem_cons_self next rest))
        (fun l hl => hcks l (List.mem_cons_of_mem next hl))
        (fun l hl => htots l (List.mem_cons_of_mem next hl))
      rw [hr]
      exact ⟨_, rfl⟩

theorem parseLoopAux_trace (sm sy ey : List Char) :
    ∀ (ls : List (List Char)) (st : ParseState) (line : List Char)
      (stF : ParseState) (tr : List (List Char)),
      parseLoopAux sm sy ey st line ls = some (stF, tr) →
      tr = takeThroughTerminal ((line :: ls).dropLast)
  | [], st, line, stF, tr, h => by
    rw [show parseLoopAux sm sy ey st line [] = some (st, []) from rfl,
      Option.some_inj, Prod.mk.injEq] at h
    rw [← h.2]
    rfl
  | next :: rest, st, line, stF, tr, h => by
    unfold parseLoopAux at h
    rcases (parseStep sm sy ey st line next).eq_none_or_eq_some with hsb | ⟨sb, hsb⟩ <;>
      rw [hsb] at h
    · simp at h
    simp only at h
    obtain ⟨sb1, brk⟩ := sb
    have hbrk := parseStep_brk hsb
    rw [List.dropLast_cons₂, takeThroughTerminal]
    cases hb : brk with
    | true =>
      rw [hb] at h hbrk
      simp only [if_true, Option.some_inj, Prod.mk.injEq] at h
      rw [← h.2, ← hbrk]
      simp
    | false =>
      rw [hb] at h hbrk
      simp only [Bool.false_eq_true, if_false] at h
      rcases (parseLoopAux sm sy ey sb1 next rest).eq_none_or_eq_some with hr | ⟨r, hr⟩ <;>
        rw [hr] at h
      · simp at h
      simp only [Option.map_some', Option.some_inj, Prod.mk.injEq] at h
      rw [← h.2, ← hbrk]
      simp only [Bool.false_eq_true, if_false]
      rw [parseLoopAux_trace sm sy ey rest sb1 next r.1 r.2 (by rw [hr])]

theorem parseLoopAux_new (sm sy ey : List Char) :
    ∀ (ls : List (List Char)) (st : ParseState) (line : List Char)
      (stF : ParseState) (tr : List (List Char)),
      parseLoopAux sm sy ey st line ls = some (stF, tr) →
      ∃ new, stF.transactions = st.transactions ++ new ∧ ∀ t ∈ new, amountOK t
  | [], st, line, stF, tr, h => by
    rw [show parseLoopAux sm sy ey st line [] = some (st, []) from rfl,
      Option.some_inj, Prod.mk.injEq] at h
    rw [← h.1]
    exact ⟨[], by simp, by simp⟩
  | next :: rest, st, line, stF, tr, h => by
    unfold parseLoopAux at h
    rcases (parseStep sm sy ey st line next).eq_none_or_eq_some with hsb | ⟨sb, hsb⟩ <;>
      rw [hsb] at h
    · simp at h
    simp only at h
    obtain ⟨sb1, brk⟩ := sb
    obtain ⟨new1, hnew1, hP1⟩ := parseStep_new hsb
    cases hb : brk with
    | true =>
      rw [hb] at h
      simp only [if_true, Option.some_inj, Prod.mk.injEq] at h
      refine ⟨new1, ?_, hP1⟩
      rw [← h.1]
      exact hnew1
    | false =>
      rw [hb] at h
      simp only [Bool.false_eq_true, if_false] at h
      rcases (parseLoopAux sm sy ey sb1 next rest).eq_none_or_eq_some with hr | ⟨r, hr⟩ <;>
        rw [hr] at h
      · simp at h
      simp only [Option.map_some', Option.some_inj, Prod.mk.injEq] at h
      obtain ⟨new2, hnew2, hP2⟩ :=
        parseLoopAux_new sm sy ey rest sb1 next r.1 r.2 (by rw [hr])
      refine ⟨new1 ++ new2, ?_, ?_⟩
      · rw [← h.1, hnew2, hnew1, List.append_assoc]
      · intro t ht
        rcases List.mem_append.mp ht with ht | ht
        · exact hP1 t ht
        · exact hP2 t ht

theorem parseLoopAux_frozen (sm sy ey : List Char) :
    ∀ (ls : List (List Char)) (st : ParseState) (line : List Char)
      (stF : ParseState) (tr : List (List Char)),
      parseLoopAux sm sy ey st line ls = some (stF, tr) →
      st.expected_deductions.isZero = false →
      stF.expected_deposits = st.expected_deposits ∧
        stF.expected_deductions = st.expected_deductions
  | [], st, line, stF, tr, h, hne => by
    rw [show parseLoopAux sm sy ey st line [] = some (st, []) from rfl,
      Option.some_inj, Prod.mk.injEq] at h
    rw [← h.1]
    exact ⟨rfl, rfl⟩
  | next :: rest, st, line, stF, tr, h, hne => by
    unfold parseLoopAux at h
    rcases (parseStep sm sy ey st line next).eq_none_or_eq_some with hsb | ⟨sb, hsb⟩ <;>
      rw [hsb] at h
    · simp at h
    simp only at h
    obtain ⟨sb1, brk⟩ := sb
    obtain ⟨he1, he2⟩ := parseStep_expected_frozen hsb hne
    cases hb : brk with
    | true =>
      rw [hb] at h
      simp only [if_true, Option.some_inj, Prod.mk.injEq] at h
      rw [← h.1]
      exact ⟨he1, he2⟩
    | false =>
      rw [hb] at h
      simp only [Bool.false_eq_true, if_false] at h
      rcases (parseLoopAux sm sy ey sb1 next rest).eq_none_or_eq_some with hr | ⟨r, hr⟩ <;>
        rw [hr] at h
      · simp at h
      simp only [Option.map_some', Option.some_inj, Prod.mk.injEq] at h
      have hz : sb1.expected_deductions.isZero = false := by rw [he2]; exact hne
      obtain ⟨hf1, hf2⟩ :=
        parseLoopAux_frozen sm sy ey rest sb1 next r.1 r.2 (by rw [hr]) hz
      rw [← h.1, hf1, hf2, he1, he2]
      exact ⟨rfl, rfl⟩

theorem parseLoopAux_totals (sm sy ey : List Char) :
    ∀ (ls : List (List Char)) (st : ParseState) (line : List Char)
      (stF : ParseState) (tr : List (List Char)) (l : List Char)
      (ts : List Dec) (dep ded : Dec),
      parseLoopAux sm sy ey st line ls = some (stF, tr) →
      st.expected_deductions.isZero = true →
      tr.find? totals_pattern = some l →
      decodeTotals l = some ts → ts.get? 1 = some dep → ts.get? 2 = some ded →
      ded.isZero = false →
      stF.expected_deposits = dep ∧ stF.expected_deductions = ded
  | [], st, line, stF, tr, l, ts, dep, ded, h, h0, hfind, hdec, h1, h2, hz => by
    rw [show parseLoopAux sm sy ey st line [] = some (st, []) from rfl,
      Option.some_inj, Prod.mk.injEq] at h
    rw [← h.2] at hfind
    simp at hfind
  | next :: rest, st, line, stF, tr, l, ts, dep, ded, h, h0, hfind, hdec, h1, h2, hz => by
    unfold parseLoopAux at h
    rcases (parseStep sm sy ey st line next).eq_none_or_eq_some with hsb | ⟨sb, hsb⟩ <;>
      rw [hsb] at h
    · simp at h
    simp only at h
    obtain ⟨sb1, brk⟩ := sb
    cases hp : totals_pattern line with
    | true =>
      have hl : l = line := by
        cases hb : brk with
        | true =>
          rw [hb] at h
          simp only [if_true, Option.some_inj, Prod.mk.injEq] at h
          rw [← h.2, List.find?_cons_of_pos _ hp, Option.some_inj] at hfind
          exact hfind.symm
        | false =>
          rw [hb] at h
          simp only [Bool.false_eq_true, if_false] at h
          rcases (parseLoopAux sm sy ey sb1 next rest).eq_none_or_eq_some with
            hr | ⟨r, hr⟩ <;> rw [hr] at h
          · simp at h
          simp only [Option.map_some', Option.some_inj, Prod.mk.injEq] at h
          rw [← h.2, List.find?_cons_of_pos _ hp, Option.some_inj] at hfind
          exact hfind.symm
      subst hl
      obtain ⟨hs1, hs2⟩ := parseStep_totals_set hsb h0 hp hdec h1 h2
      cases hb : brk with
      | true =>
        rw [hb] at h
        simp only [if_true, Option.some_inj, Prod.mk.injEq] at h
        rw [← h.1]
        exact ⟨hs1, hs2⟩
      | false =>
        rw [hb] at h
        simp only [Bool.false_eq_true, if_false] at h
        rcases (parseLoopAux sm sy ey sb1 next rest).eq_none_or_eq_some with
          hr | ⟨r, hr⟩ <;> rw [hr] at h
        · simp at h
        simp only [Option.map_some', Option.some_inj, Prod.mk.injEq] at h
        have hzf : sb1.expected_deductions.isZero = false := by rw [hs2]; exact hz
        obtain ⟨hf1, hf2⟩ :=
          parseLoopAux_frozen sm sy ey rest sb1 next r.1 r.2 (by rw [hr]) hzf
        rw [← h.1, hf1, hf2, hs1, hs2]
        exact ⟨rfl, rfl⟩
    | false =>
      obtain ⟨hn1, hn2⟩ := parseStep_no_totals hsb hp
      cases hb : brk with
      | true =>
        rw [hb] at h
        simp only [if_true, Option.some_inj, Prod.mk.injEq] at h
        rw [← h.2, List.find?_cons_of_neg _ (by rw [hp]; exact Bool.false_ne_true),
          List.find?_nil] at hfind
        cases hfind
      | false =>
        rw [hb] at h
        simp only [Bool.false_eq_true, if_false] at h
        rcases (parseLoopAux sm sy ey sb1 next rest).eq_none_or_eq_some with
          hr | ⟨r, hr⟩ <;> rw [hr] at h
        · simp at h
        simp only [Option.map_some', Option.some_inj, Prod.mk.injEq] at h
        rw [← h.2, List.find?_cons_of_neg _ (by rw [hp]; exact Bool.false_ne_true)] at hfind
        have hz0 : sb1.expected_deductions.isZero = true := by rw [hn2]; exact h0
        obtain ⟨ht1, ht2⟩ := parseLoopAux_totals sm sy ey rest sb1 next r.1 r.2 l ts
          dep ded (by rw [hr]) hz0 hfind hdec h1 h2 hz
        rw [← h.1, ht1, ht2]
        exact ⟨rfl, rfl⟩

/-! ## Period-extraction lemmas -/

theorem periodMatchAt_smOK {s sm sy ey : List Char}
    (h : periodMatchAt s = some (sm, sy, ey)) : smOK sm = true := by
  unfold periodMatchAt at h
  split at h
  · split at h
    · rename_i m1 m2 s1 a1 a2 s2 y1 y2 y3 y4 t1 t2 t3 t4 n1 n2 s3 b1 b2 s4 z1 z2 z3 z4 rest heq
      split at h
      · rename_i hcond
        have hm1 : m1.isDigit = true := by
          revert hcond
          cases m1.isDigit <;> simp
        have hm2 : m2.isDigit = true := by
          revert hcond
          cases m2.isDigit <;> simp
        rw [Option.some_inj] at h
        have hsm : sm = [m1, m2] := by
          have := congrArg Prod.fst h
          simpa using this.symm
        rw [hsm]
        simp [smOK, hm1, hm2]
      · cases h
    · cases h
  · cases h

theorem periodSearchLine_smOK :
    ∀ {s : List Char} {r : List Char × List Char × List Char},
      periodSearchLine s = some r → smOK r.1 = true
  | [], r, h => by cases h
  | c :: rest, r, h => by
    unfold periodSearchLine at h
    rcases (periodMatchAt (c :: rest)).eq_none_or_eq_some with hm | ⟨r', hm⟩ <;>
      rw [hm] at h
    · simp only at h
      exact periodSearchLine_smOK h
    · simp only [Option.some_inj] at h
      subst h
      obtain ⟨sm, sy, ey⟩ := r'
      exact periodMatchAt_smOK hm

theorem findPeriod_smOK :
    ∀ {ls : List (List Char)} {r : List Char × List Char × List Char},
      findPeriod ls = some r → smOK r.1 = true
  | [], r, h => by cases h
  | l :: rest, r, h => by
    unfold findPeriod at h
    rcases (periodSearchLine l).eq_none_or_eq_some with hm | ⟨r', hm⟩ <;> rw [hm] at h
    · simp only at h
      exact findPeriod_smOK h
    · simp only [Option.some_inj] at h
      subst h
      exact periodSearchLine_smOK hm

theorem periodExtract_smOK (cy : List Char) (data : List (List Char)) :
    smOK (periodExtract cy data).1 = true := by
  unfold periodExtract
  rcases (findPeriod data).eq_none_or_eq_some with hm | ⟨r, hm⟩ <;> rw [hm]
  · show smOK ['0', '1'] = true
    decide
  · exact findPeriod_smOK hm

/-! ## Top-level helpers -/

theorem Dec.beq_refl (d : Dec) : d.beq d = true := by simp [Dec.beq]

theorem transEq_refl (t : Transaction) : transEq t t = true := by
  simp [transEq, Dec.beq_refl]

theorem listTransEq_refl : ∀ ts : List Transaction, listTransEq ts ts = true
  | [] => rfl
  | t :: ts => by
    rw [listTransEq, transEq_refl, listTransEq_refl ts]
    rfl

theorem parse_returns_transactions {cy : List Char} {data : List (List Char)}
    {st : ParseState} {tr : List (List Char)}
    (h : parseStatement cy data = some (st, tr)) (hne : data ≠ []) :
    parse_transaction_text cy data = some st.transactions := by
  unfold parse_transaction_text
  cases data with
  | nil => exact absurd rfl hne
  | cons line rest =>
    rw [show (line :: rest).isEmpty = false from rfl]
    simp only [Bool.false_eq_true, if_false]
    rw [h]
    rfl

theorem parseStatement_cons {cy line : List Char} {rest : List (List Char)}
    {sm sy ey : List Char} (hpe : periodExtract cy (line :: rest) = (sm, sy, ey)) :
    parseStatement cy (line :: rest) = parseLoopAux sm sy ey initState line rest := by
  unfold parseStatement parseLoop
  rw [hpe]

/-! ## Claim theorems -/

/-- C1 (corrected).  The orchestrator performs one forward pass with
one-line lookahead, but because the two `tee` iterators are zipped with
`tail` one element ahead, the pairs run out one line early: the lines
examined as the current line are exactly the lines *before the last
one*, truncated at the first terminal line among them; the final input
line is only ever visible as lookahead (even when it is the terminal
line, or an entry).  The final transaction list is returned. -/
theorem single_pass_lookahead_amended (cy : List Char) (data : List (List Char))
    (st : ParseState) (tr : List (List Char))
    (h : parseStatement cy data = some (st, tr)) :
    tr = takeThroughTerminal data.dropLast ∧
      (data ≠ [] → parse_transaction_text cy data = some st.transactions) := by
  refine ⟨?_, fun hne => parse_returns_transactions h hne⟩
  cases data with
  | nil =>
    rw [show parseStatement cy [] = some (initState, []) from rfl,
      Option.some_inj, Prod.mk.injEq] at h
    rw [← h.2]
    rfl
  | cons line rest =>
    rcases hpe : periodExtract cy (line :: rest) with ⟨sm, sy, ey⟩
    rw [parseStatement_cons hpe] at h
    exact parseLoopAux_trace sm sy ey rest initState line st tr h

/-- C1 counterexample: on a two-line input whose second line is a
deposit entry (and with no terminal line at all), only the first line is
ever examined as the current line; the entry line is lost and the claim
that every line is examined fails. -/
theorem single_pass_lookahead_cex :
    (parseStatement ("2025".toList)
        ["Deposits and Other Additions".toList,
         "03/05 1,200.00 Payroll Deposit".toList]).map (fun p => p.2) =
      some [("Deposits and Other Additions".toList)] ∧
    (["Deposits and Other Additions".toList,
      "03/05 1,200.00 Payroll Deposit".toList] :
        List (List Char)) ≠ ["Deposits and Other Additions".toList] ∧
    isTerminalLine ("Deposits and Other Additions".toList) = false ∧
    isTerminalLine ("03/05 1,200.00 Payroll Deposit".toList) = false ∧
    trans_pattern ("03/05 1,200.00 Payroll Deposit".toList) = true ∧
    parse_transaction_text ("2025".toList)
      ["Deposits and Other Additions".toList,
       "03/05 1,200.00 Payroll Deposit".toList] = some [] := by
  decide

/-- C1 witness: the amended statement instantiated on a concrete
two-line input. -/
theorem single_pass_lookahead_witness :
    (["a".toList] : List (List Char)) =
        takeThroughTerminal ((["a".toList, "b".toList] : List (List Char)).dropLast) ∧
      ((["a".toList, "b".toList] : List (List Char)) ≠ [] →
        parse_transaction_text ("2024".toList) ["a".toList, "b".toList] =
          some initState.transactions) :=
  single_pass_lookahead_amended ("2024".toList) ["a".toList, "b".toList] initState
    ["a".toList] (by decide)

/-- C7 (confirmed).  The five-line scenario of the spec: exactly one
transaction, category Deposit, date resolved with start year 2024,
amount `⟨120000, 2⟩` (the exact decimal 1200.00), description
"Payroll Deposit" (the section header after it is not appended). -/
theorem deposit_scenario_end_to_end :
    parse_transaction_text ("2099".toList)
      ["For the period 03/01/2024 to 03/31/2024".toList,
       "Deposits and Other Additions".toList,
       "03/05 1,200.00 Payroll Deposit".toList,
       "Checks and Substitute Checks".toList,
       "Daily Balance Detail".toList] =
      some [⟨"03.05.2024".toList, TransactionType.DEPOSIT, ⟨120000, 2⟩,
        "Payroll Deposit".toList⟩] ∧
    Dec.toRat ⟨120000, 2⟩ = 1200 := by
  refine ⟨by decide, ?_⟩
  norm_num [Dec.toRat]

/-- C10 (confirmed).  Parsing is a pure function of the line sequence
(given the same clock value for the period fallback): two successful
runs on the same input return lists of equal length that are equal
element-wise under the structural equality of `Transaction.__eq__`
(all four fields, amounts compared by value). -/
theorem parse_idempotent (cy : List Char) (data : List (List Char))
    (ts1 ts2 : List Transaction)
    (h1 : parse_transaction_text cy data = some ts1)
    (h2 : parse_transaction_text cy data = some ts2) :
    ts1.length = ts2.length ∧ listTransEq ts1 ts2 = true := by
  rw [h1, Option.some_inj] at h2
  subst h2
  exact ⟨rfl, listTransEq_refl ts1⟩

/-- C10 witness: idempotence instantiated on a concrete statement. -/
theorem parse_idempotent_witness :
    ([(⟨"04.01.2024".toList, TransactionType.DEPOSIT, ⟨1000, 2⟩,
        "Gift".toList⟩ : Transaction)].length =
      [(⟨"04.01.2024".toList, TransactionType.DEPOSIT, ⟨1000, 2⟩,
        "Gift".toList⟩ : Transaction)].length) ∧
    listTransEq
      [⟨"04.01.2024".toList, TransactionType.DEPOSIT, ⟨1000, 2⟩, "Gift".toList⟩]
      [⟨"04.01.2024".toList, TransactionType.DEPOSIT, ⟨1000, 2⟩, "Gift".toList⟩] = true :=
  parse_idempotent ("2099".toList)
    ["For the period 04/01/2024 to 04/30/2024".toList,
     "Deposits and Other Additions".toList,
     "04/01 10.00 Gift".toList,
     "Daily Balance Detail".toList,
     "end".toList]
    [⟨"04.01.2024".toList, TransactionType.DEPOSIT, ⟨1000, 2⟩, "Gift".toList⟩]
    [⟨"04.01.2024".toList, TransactionType.DEPOSIT, ⟨1000, 2⟩, "Gift".toList⟩]
    (by decide) (by decide)

/-- C2 (corrected).  The parser does *not* tolerate every malformed
line: a check-section line matching the check prefix whose token list is
not complete well-formed quadruples raises (`IndexError`/`ValueError`),
and a totals-shaped line whose trailing-minus value keeps a thousands
separator raises `ValueError` (see the counterexample).  Amended: on
every input whose check-pattern lines split into complete quadruples
with float-parsable amounts and `MM/DD`-style dates (`checkLineOK`), and
whose totals-shaped lines decode (`totalsLineOK`), the function
terminates normally and returns a (possibly empty) transaction list;
the return channel carries no failure signal. -/
theorem no_raise_policy_amended (cy : List Char) (data : List (List Char))
    (hck : ∀ l ∈ data, check_pattern l = true → checkLineOK l = true)
    (htot : ∀ l ∈ data, totals_pattern l = true → totalsLineOK l = true) :
    ∃ ts, parse_transaction_text cy data = some ts := by
  cases data with
  | nil => exact ⟨[], rfl⟩
  | cons line rest =>
    rcases hpe : periodExtract cy (line :: rest) with ⟨sm, sy, ey⟩
    have hsm : smOK sm = true := by
      have h := periodExtract_smOK cy (line :: rest)
      rw [hpe] at h
      exact h
    obtain ⟨⟨stR, trR⟩, hr⟩ := parseLoopAux_some sm sy ey hsm rest initState line
      (hck line (List.mem_cons_self line rest))
      (htot line (List.mem_cons_self line rest))
      (fun l hl => hck l (List.mem_cons_of_mem line hl))
      (fun l hl => htot l (List.mem_cons_of_mem line hl))
    refine ⟨stR.transactions, ?_⟩
    exact parse_returns_transactions (by rw [parseStatement_cons hpe, hr]) (by simp)

/-- C2 counterexample: a check-section line with an incomplete final
quadruple (5 tokens) matches the check prefix, and the group loop then
indexes past the end — an exception propagates (modelled as `none`),
no list is returned. -/
theorem no_raise_policy_cex :
    parse_transaction_text ("2099".toList)
      ["For the period 01/01/2024 to 12/31/2024".toList,
       "Checks and Substitute Checks".toList,
       "101 45.00 03/10 REF1 102".toList,
       "end".toList] = none ∧
    check_pattern ("101 45.00 03/10 REF1 102".toList) = true := by
  decide

/-- C2 witness: the amended no-raise statement on a concrete well-formed
statement text. -/
theorem no_raise_policy_witness :
    ∃ ts, parse_transaction_text ("2099".toList)
      ["For the period 01/01/2024 to 12/31/2024".toList,
       "Checks and Substitute Checks".toList,
       "101 45.00 03/10 REF1".toList,
       "end".toList] = some ts :=
  no_raise_policy_amended ("2099".toList)
    ["For the period 01/01/2024 to 12/31/2024".toList,
     "Checks and Substitute Checks".toList,
     "101 45.00 03/10 REF1".toList,
     "end".toList]
    (by decide) (by decide)

/-- C3 (corrected).  The first-wins guard is `not expected_deductions`,
i.e. Python truthiness of a float: a totals line whose deductions
position decodes to `0.00` does *not* arm the guard, and a later
totals-shaped line overwrites both expected values (see the
counterexample).  Amended: the retained expected totals are the ones
decoded from the first examined totals-shaped line whose deductions
position (index 2) is nonzero; once a nonzero deductions value is
stored, later totals-shaped lines are ignored. -/
theorem totals_first_wins_amended (cy : List Char) (data : List (List Char))
    (st : ParseState) (tr : List (List Char)) (l : List Char) (ts : List Dec)
    (dep ded : Dec) (h : parseStatement cy data = some (st, tr))
    (hfind : tr.find? totals_pattern = some l)
    (hdec : decodeTotals l = some ts) (h1 : ts.get? 1 = some dep)
    (h2 : ts.get? 2 = some ded) (hz : ded.isZero = false) :
    st.expected_deposits = dep ∧ st.expected_deductions = ded := by
  cases data with
  | nil =>
    rw [show parseStatement cy [] = some (initState, []) from rfl,
      Option.some_inj, Prod.mk.injEq] at h
    rw [← h.2] at hfind
    cases hfind
  | cons line rest =>
    rcases hpe : periodExtract cy (line :: rest) with ⟨sm, sy, ey⟩
    rw [parseStatement_cons hpe] at h
    exact parseLoopAux_totals sm sy ey rest initState line st tr l ts dep ded h
      rfl hfind hdec h1 h2 hz

/-- C3 counterexample: the first totals-shaped line decodes to
deductions `0.00`, so the second totals-shaped line overwrites both
values — the retained expected deposits `⟨800, 2⟩` (8.00) are not the
first line's `⟨500, 2⟩` (5.00). -/
theorem totals_first_wins_cex :
    (parseStatement ("2024".toList)
        ["1.00 5.00 0.00 4.00".toList, "9.00 8.00 7.00 6.00".toList,
         "end".toList]).map
      (fun p => (p.1.expected_deposits, p.1.expected_deductions)) =
      some (⟨800, 2⟩, ⟨700, 2⟩) ∧
    totals_pattern ("1.00 5.00 0.00 4.00".toList) = true ∧
    totals_pattern ("9.00 8.00 7.00 6.00".toList) = true ∧
    decodeTotals ("1.00 5.00 0.00 4.00".toList) =
      some [⟨100, 2⟩, ⟨500, 2⟩, ⟨0, 2⟩, ⟨400, 2⟩] ∧
    Dec.beq ⟨800, 2⟩ ⟨500, 2⟩ = false := by
  decide

/-- C3 witness: the amended statement on a concrete input whose first
totals line has nonzero deductions. -/
theorem totals_first_wins_witness :
    (ParseState.mk [] none ⟨600, 2⟩ ⟨700, 2⟩).expected_deposits = ⟨600, 2⟩ ∧
    (ParseState.mk [] none ⟨600, 2⟩ ⟨700, 2⟩).expected_deductions = ⟨700, 2⟩ :=
  totals_first_wins_amended ("2024".toList)
    ["5.00 6.00 7.00 8.00".toList, "end".toList]
    (ParseState.mk [] none ⟨600, 2⟩ ⟨700, 2⟩) ["5.00 6.00 7.00 8.00".toList]
    ("5.00 6.00 7.00 8.00".toList)
    [⟨500, 2⟩, ⟨600, 2⟩, ⟨700, 2⟩, ⟨800, 2⟩] ⟨600, 2⟩ ⟨700, 2⟩
    (by decide) (by decide) (by decide) (by decide) (by decide) (by decide)

/-- C4 (confirmed).  The year-resolution rule, exactly as the spec
states it (shared by the check and deposit/deduction branches), plus an
end-to-end run with start month 11, years 2023/2024 resolving a 12/05
check to 2023 and an 01/10 deposit to 2024. -/
theorem year_resolution_rule :
    (∀ (sm sy ey m : List Char) (mi si : Int), pyInt m = some mi →
      pyInt sm = some si →
      resolveYear sm sy ey m =
        some (if sy ≠ ey then (if si ≤ mi then sy else ey) else sy)) ∧
    parse_transaction_text ("2099".toList)
      ["For the period 11/01/2023 to 01/31/2024".toList,
       "Deposits and Other Additions".toList,
       "01/10 20.00 Refund".toList,
       "Checks and Substitute Checks".toList,
       "101 45.00 12/05 REF1".toList,
       "Daily Balance Detail".toList,
       "end".toList] =
      some [⟨"01.10.2024".toList, TransactionType.DEPOSIT, ⟨2000, 2⟩,
              "Refund".toList⟩,
            ⟨"12.05.2023".toList, TransactionType.CHECK, ⟨4500, 2⟩,
              "Check number: 101 [ref:REF1]".toList⟩] := by
  constructor
  · intro sm sy ey m mi si hm hsm
    unfold resolveYear
    split
    · rw [hm, hsm]
    · rfl
  · decide

/-- C4 witness: the rule instantiated on the spec's own example values
(month 12 against start month 11, differing years). -/
theorem year_resolution_witness :
    resolveYear ("11".toList) ("2023".toList) ("2024".toList) ("12".toList) =
      some (if ("2023".toList : List Char) ≠ ("2024".toList) then
        (if (11 : Int) ≤ 12 then "2023".toList else "2024".toList)
      else "2023".toList) :=
  year_resolution_rule.1 ("11".toList) ("2023".toList) ("2024".toList)
    ("12".toList) 12 11 (by decide) (by decide)

/-- C5 (confirmed).  For an extracted deposit/deduction entry, the next
line's full text is appended (space-joined) to the description exactly
when the next line does not match the entry pattern and contains none of
the six reserved header texts; otherwise the description is exactly the
space-join of the line's remaining tokens. -/
theorem description_continuation_rule (sm sy ey : List Char) (tt : TransactionType)
    (line next : List Char) (t : Transaction) (hp : trans_pattern line = true)
    (h : processTransLine sm sy ey tt line next = some t) :
    (t.description = " ".toList.intercalate ((pySplit line).drop 2) ++ ' ' :: next ↔
      (trans_pattern next = false ∧ ∀ r ∈ reserved, containsSub r next = false)) ∧
    ((trans_pattern next = true ∨ ∃ r ∈ reserved, containsSub r next = true) →
      t.description = " ".toList.intercalate ((pySplit line).drop 2)) := by
  obtain ⟨m1, m2, d1, d2, run, a, b, tail, hm1, hm2, hd1, hd2, ha, hb, hrun, hsplit⟩ :=
    trans_pattern_pySplit hp
  simp only [processTransLine, hsplit, List.get?_cons_zero, List.get?_cons_succ,
    splitSlashTwo_mmdd hm1 hm2 hd1 hd2, filter_comma_amount a b ha hb,
    pyFloat_amount_token (filter_comma_digits hrun) ha hb] at h
  split at h
  · exact absurd h (by simp)
  · rw [Option.some_inj] at h
    subst h
    rw [hsplit]
    have hiff : ((!trans_pattern next &&
        !(reserved.any (fun r => containsSub r next))) = true) ↔
        (trans_pattern next = false ∧ ∀ r ∈ reserved, containsSub r next = false) := by
      simp [List.any_eq_false]
    cases hcond : (!trans_pattern next && !(reserved.any (fun r => containsSub r next))) with
    | true =>
      refine ⟨⟨fun _ => hiff.mp hcond, fun _ => ?_⟩, fun hbad => ?_⟩
      · simp only [hcond, if_true]
      · obtain ⟨h1, h2⟩ := hiff.mp hcond
        rcases hbad with hb1 | ⟨r, hr, hb2⟩
        · rw [h1] at hb1
          cases hb1
        · rw [h2 r hr] at hb2
          cases hb2
    | false =>
      refine ⟨⟨fun heq => ?_, fun hrhs => ?_⟩, fun _ => ?_⟩
      · simp only [hcond, Bool.false_eq_true, if_false] at heq
        exact absurd (congrArg List.length heq) (by simp)
      · exact absurd (hiff.mpr hrhs) (by rw [hcond]; exact Bool.false_ne_true)
      · simp only [hcond, Bool.false_eq_true, if_false]

/-- C5 witness: continuation refused on a concrete deposit line followed
by the "Checks and Substitute Checks" header. -/
theorem description_continuation_witness :
    (((⟨"03.05.2024".toList, TransactionType.DEPOSIT, ⟨900, 2⟩,
          "Pay".toList⟩ : Transaction)).description =
        " ".toList.intercalate ((pySplit ("03/05 9.00 Pay".toList)).drop 2) ++
          ' ' :: ("Checks and Substitute Checks".toList) ↔
      (trans_pattern ("Checks and Substitute Checks".toList) = false ∧
        ∀ r ∈ reserved, containsSub r ("Checks and Substitute Checks".toList) = false)) ∧
    ((trans_pattern ("Checks and Substitute Checks".toList) = true ∨
        ∃ r ∈ reserved, containsSub r ("Checks and Substitute Checks".toList) = true) →
      ((⟨"03.05.2024".toList, TransactionType.DEPOSIT, ⟨900, 2⟩,
          "Pay".toList⟩ : Transaction)).description =
        " ".toList.intercalate ((pySplit ("03/05 9.00 Pay".toList)).drop 2)) :=
  description_continuation_rule ("01".toList) ("2024".toList) ("2024".toList)
    TransactionType.DEPOSIT ("03/05 9.00 Pay".toList)
    ("Checks and Substitute Checks".toList)
    ⟨"03.05.2024".toList, TransactionType.DEPOSIT, ⟨900, 2⟩, "Pay".toList⟩
    (by decide) (by decide)

/-- C6 (confirmed).  After a successful pass: the fatal-severity
deduction mismatch signal is emitted exactly when the expected
deductions are nonzero and differ (as float values) from the rounded
deduction-and-check sum; an expected value of exactly 0.0 produces no
comparison at all; deposits likewise; and the full transaction list is
returned unchanged either way.  The second half runs the spec's
synthetic scenario (expected 100.00 against an extracted 90.00). -/
theorem reconciliation_reporting :
    (∀ (cy : List Char) (data : List (List Char)) (st : ParseState)
        (tr : List (List Char)), parseStatement cy data = some (st, tr) →
      (((reconcile st).deductionSignal = some true) ↔
        (st.expected_deductions.isZero = false ∧
          (actualDeductions st.transactions).beq st.expected_deductions = false)) ∧
      (st.expected_deductions.isZero = true →
        (reconcile st).deductionSignal = none) ∧
      (((reconcile st).depositSignal = some true) ↔
        (st.expected_deposits.isZero = false ∧
          (actualDeposits st.transactions).beq st.expected_deposits = false)) ∧
      (st.expected_deposits.isZero = true → (reconcile st).depositSignal = none) ∧
      (data ≠ [] → parse_transaction_text cy data = some st.transactions)) ∧
    ((parseStatement ("2099".toList)
        ["For the period 03/01/2024 to 03/31/2024".toList,
         "1.00 0.00 100.00 1.00".toList,
         "Banking/Debit Card Withdrawals and Purchases".toList,
         "03/05 90.00 Fee".toList,
         "Daily Balance Detail".toList,
         "end".toList]).map
      (fun p => ((reconcile p.1).deductionSignal, (reconcile p.1).depositSignal,
        p.1.transactions)) =
      some (some true, none,
        [⟨"03.05.2024".toList, TransactionType.DEDUCTION, ⟨9000, 2⟩,
          "Fee".toList⟩])) := by
  constructor
  · intro cy data st tr h
    refine ⟨?_, ?_, ?_, ?_, fun hne => parse_returns_transactions h hne⟩
    · unfold reconcile
      cases hz : st.expected_deductions.isZero with
      | true => simp [hz]
      | false => simp [hz]
    · intro hz
      unfold reconcile
      simp [hz]
    · unfold reconcile
      cases hz : st.expected_deposits.isZero with
      | true => simp [hz]
      | false => simp [hz]
    · intro hz
      unfold reconcile
      simp [hz]
  · decide

/-- C8 (corrected).  Every returned transaction's category is one of the
three enum values and its amount is an exact multiple of 0.01 (rounding
to two decimals happens at construction); amounts extracted under the
deposit/deduction grammar are non-negative, but the check grammar only
constrains the *first* quadruple of a line, so later quadruples can
carry a negative amount token (see the counterexample) — the claim's
unconditional non-negativity fails. -/
theorem category_amount_invariant_amended (cy : List Char)
    (data : List (List Char)) (ts : List Transaction)
    (h : parse_transaction_text cy data = some ts) :
    ∀ t ∈ ts,
      (t.type = TransactionType.DEDUCTION ∨ t.type = TransactionType.DEPOSIT ∨
        t.type = TransactionType.CHECK) ∧
      (∃ n : Int, t.amount.toRat = (n : ℚ) / 100) ∧
      ((t.type = TransactionType.DEPOSIT ∨ t.type = TransactionType.DEDUCTION) →
        0 ≤ t.amount.toRat) := by
  intro t ht
  refine ⟨by cases t.type <;> simp, ?_⟩
  unfold parse_transaction_text at h
  cases data with
  | nil =>
    rw [show (([] : List (List Char)).isEmpty) = true from rfl] at h
    simp only [if_true, Option.some_inj] at h
    rw [← h] at ht
    cases ht
  | cons line rest =>
    rw [show ((line :: rest).isEmpty) = false from rfl] at h
    simp only [Bool.false_eq_true, if_false] at h
    obtain ⟨⟨st, tr⟩, hps, hts⟩ := Option.map_eq_some'.mp h
    rcases hpe : periodExtract cy (line :: rest) with ⟨sm, sy, ey⟩
    rw [parseStatement_cons hpe] at hps
    obtain ⟨new, hnew, hP⟩ := parseLoopAux_new sm sy ey rest initState line st tr hps
    rw [← hts] at ht
    rw [hnew] at ht
    rw [show initState.transactions = [] from rfl, List.nil_append] at ht
    exact hP t ht

/-- C8 counterexample: a check line whose second quadruple has the
amount token `-60.00`; the parser returns a transaction whose amount
value is negative. -/
theorem category_amount_invariant_cex :
    parse_transaction_text ("2099".toList)
      ["For the period 01/01/2024 to 12/31/2024".toList,
       "Checks and Substitute Checks".toList,
       "101 45.00 03/10 REF1 102 -60.00 03/11 REF2".toList,
       "end".toList] =
      some [⟨"03.10.2024".toList, TransactionType.CHECK, ⟨4500, 2⟩,
              "Check number: 101 [ref:REF1]".toList⟩,
            ⟨"03.11.2024".toList, TransactionType.CHECK, ⟨-6000, 2⟩,
              "Check number: 102 [ref:REF2]".toList⟩] ∧
    Dec.toRat ⟨-6000, 2⟩ < 0 := by
  refine ⟨by decide, ?_⟩
  norm_num [Dec.toRat]

/-- C8 witness: the amended invariant instantiated on a concrete
one-deposit statement. -/
theorem category_amount_invariant_witness :
    ((⟨"05.02.2024".toList, TransactionType.DEPOSIT, ⟨300, 2⟩,
        "Tip".toList⟩ : Transaction).type = TransactionType.DEDUCTION ∨
      (⟨"05.02.2024".toList, TransactionType.DEPOSIT, ⟨300, 2⟩,
        "Tip".toList⟩ : Transaction).type = TransactionType.DEPOSIT ∨
      (⟨"05.02.2024".toList, TransactionType.DEPOSIT, ⟨300, 2⟩,
        "Tip".toList⟩ : Transaction).type = TransactionType.CHECK) ∧
    (∃ n : Int, (⟨"05.02.2024".toList, TransactionType.DEPOSIT, ⟨300, 2⟩,
        "Tip".toList⟩ : Transaction).amount.toRat = (n : ℚ) / 100) ∧
    (((⟨"05.02.2024".toList, TransactionType.DEPOSIT, ⟨300, 2⟩,
        "Tip".toList⟩ : Transaction).type = TransactionType.DEPOSIT ∨
      (⟨"05.02.2024".toList, TransactionType.DEPOSIT, ⟨300, 2⟩,
        "Tip".toList⟩ : Transaction).type = TransactionType.DEDUCTION) →
      0 ≤ (⟨"05.02.2024".toList, TransactionType.DEPOSIT, ⟨300, 2⟩,
        "Tip".toList⟩ : Transaction).amount.toRat) :=
  category_amount_invariant_amended ("2099".toList)
    ["For the period 05/01/2024 to 05/31/2024".toList,
     "Deposits and Other Additions".toList,
     "05/02 3.00 Tip".toList,
     "Daily Balance Detail".toList,
     "end".toList]
    [⟨"05.02.2024".toList, TransactionType.DEPOSIT, ⟨300, 2⟩, "Tip".toList⟩]
    (by decide)
    ⟨"05.02.2024".toList, TransactionType.DEPOSIT, ⟨300, 2⟩, "Tip".toList⟩
    (List.mem_cons_self _ _)

/-- C9 (corrected).  The header chain is consulted on every examined
line regardless of the current category (the new category is a function
of the line text and the previous category only), and a terminal line
`break`s before any entry extraction, so it never emits a transaction.
But a line containing a category-changing header *can* itself produce a
transaction entry when it also matches an entry grammar, because the
header chain does not consume the line (see the counterexample) — the
claim's "never itself produces an entry" fails for the three
category-changing headers. -/
theorem header_line_handling_amended (sm sy ey : List Char) (st : ParseState)
    (l n : List Char) (st' : ParseState) (brk : Bool)
    (h : parseStep sm sy ey st l n = some (st', brk)) :
    st'.trans_type = (headerUpdate l st.trans_type).1 ∧
    brk = isTerminalLine l ∧
    (brk = true → st'.transactions = st.transactions) :=
  ⟨parseStep_type h, parseStep_brk h, parseStep_break_no_entry h⟩

/-- C9 counterexample: a line that contains "Deposits and Other
Additions" *and* matches the deposit/deduction entry grammar both
switches the category and produces a transaction (whose description even
swallows the following line). -/
theorem header_line_handling_cex :
    parse_transaction_text ("2099".toList)
      ["For the period 01/01/2024 to 12/31/2024".toList,
       "03/05 100.00 Deposits and Other Additions".toList,
       "end".toList] =
      some [⟨"03.05.2024".toList, TransactionType.DEPOSIT, ⟨10000, 2⟩,
        "Deposits and Other Additions end".toList⟩] ∧
    containsSub hDeposits ("03/05 100.00 Deposits and Other Additions".toList) = true ∧
    trans_pattern ("03/05 100.00 Deposits and Other Additions".toList) = true := by
  decide

/-- C9 witness: the amended statement instantiated on a terminal line. -/
theorem header_line_handling_witness :
    initState.trans_type =
        (headerUpdate ("Daily Balance Detail".toList) initState.trans_type).1 ∧
    true = isTerminalLine ("Daily Balance Detail".toList) ∧
    (true = true → initState.transactions = initState.transactions) :=
  header_line_handling_amended ("01".toList) ("2024".toList) ("2024".toList)
    initState ("Daily Balance Detail".toList) ("x".toList) initState true
    (by decide)

/-- C6 witness: the reporting contract instantiated on the synthetic
mismatch scenario (expected deductions 100.00, extracted 90.00). -/
theorem reconciliation_reporting_witness :
    (((reconcile (ParseState.mk
          [⟨"03.05.2024".toList, TransactionType.DEDUCTION, ⟨9000, 2⟩,
            "Fee".toList⟩] (some TransactionType.DEDUCTION) ⟨0, 2⟩
          ⟨10000, 2⟩)).deductionSignal = some true) ↔
      ((ParseState.mk
          [⟨"03.05.2024".toList, TransactionType.DEDUCTION, ⟨9000, 2⟩,
            "Fee".toList⟩] (some TransactionType.DEDUCTION) ⟨0, 2⟩
          ⟨10000, 2⟩).expected_deductions.isZero = false ∧
        (actualDeductions (ParseState.mk
          [⟨"03.05.2024".toList, TransactionType.DEDUCTION, ⟨9000, 2⟩,
            "Fee".toList⟩] (some TransactionType.DEDUCTION) ⟨0, 2⟩
          ⟨10000, 2⟩).transactions).beq (ParseState.mk
          [⟨"03.05.2024".toList, TransactionType.DEDUCTION, ⟨9000, 2⟩,
            "Fee".toList⟩] (some TransactionType.DEDUCTION) ⟨0, 2⟩
          ⟨10000, 2⟩).expected_deductions = false)) ∧
    ((ParseState.mk
        [⟨"03.05.2024".toList, TransactionType.DEDUCTION, ⟨9000, 2⟩,
          "Fee".toList⟩] (some TransactionType.DEDUCTION) ⟨0, 2⟩
        ⟨10000, 2⟩).expected_deductions.isZero = true →
      (reconcile (ParseState.mk
        [⟨"03.05.2024".toList, TransactionType.DEDUCTION, ⟨9000, 2⟩,
          "Fee".toList⟩] (some TransactionType.DEDUCTION) ⟨0, 2⟩
        ⟨10000, 2⟩)).deductionSignal = none) ∧
    (((reconcile (ParseState.mk
        [⟨"03.05.2024".toList, TransactionType.DEDUCTION, ⟨9000, 2⟩,
          "Fee".toList⟩] (some TransactionType.DEDUCTION) ⟨0, 2⟩
        ⟨10000, 2⟩)).depositSignal = some true) ↔
      ((ParseState.mk
          [⟨"03.05.2024".toList, TransactionType.DEDUCTION, ⟨9000, 2⟩,
            "Fee".toList⟩] (some TransactionType.DEDUCTION) ⟨0, 2⟩
          ⟨10000, 2⟩).expected_deposits.isZero = false ∧
        (actualDeposits (ParseState.mk
          [⟨"03.05.2024".toList, TransactionType.DEDUCTION, ⟨9000, 2⟩,
            "Fee".toList⟩] (some TransactionType.DEDUCTION) ⟨0, 2⟩
          ⟨10000, 2⟩).transactions).beq (ParseState.mk
          [⟨"03.05.2024".toList, TransactionType.DEDUCTION, ⟨9000, 2⟩,
            "Fee".toList⟩] (some TransactionType.DEDUCTION) ⟨0, 2⟩
          ⟨10000, 2⟩).expected_deposits = false)) ∧
    ((ParseState.mk
        [⟨"03.05.2024".toList, TransactionType.DEDUCTION, ⟨9000, 2⟩,
          "Fee".toList⟩] (some TransactionType.DEDUCTION) ⟨0, 2⟩
        ⟨10000, 2⟩).expected_deposits.isZero = true →
      (reconcile (ParseState.mk
        [⟨"03.05.2024".toList, TransactionType.DEDUCTION, ⟨9000, 2⟩,
          "Fee".toList⟩] (some TransactionType.DEDUCTION) ⟨0, 2⟩
        ⟨10000, 2⟩)).depositSignal = none) ∧
    ((["For the period 03/01/2024 to 03/31/2024".toList,
       "1.00 0.00 100.00 1.00".toList,
       "Banking/Debit Card Withdrawals and Purchases".toList,
       "03/05 90.00 Fee".toList,
       "Daily Balance Detail".toList,
       "end".toList] : List (List Char)) ≠ [] →
      parse_transaction_text ("2099".toList)
        ["For the period 03/01/2024 to 03/31/2024".toList,
         "1.00 0.00 100.00 1.00".toList,
         "Banking/Debit Card Withdrawals and Purchases".toList,
         "03/05 90.00 Fee".toList,
         "Daily Balance Detail".toList,
         "end".toList] =
        some (ParseState.mk
          [⟨"03.05.2024".toList, TransactionType.DEDUCTION, ⟨9000, 2⟩,
            "Fee".toList⟩] (some TransactionType.DEDUCTION) ⟨0, 2⟩
          ⟨10000, 2⟩).transactions) :=
  reconciliation_reporting.1 ("2099".toList)
    ["For the period 03/01/2024 to 03/31/2024".toList,
     "1.00 0.00 100.00 1.00".toList,
     "Banking/Debit Card Withdrawals and Purchases".toList,
     "03/05 90.00 Fee".toList,
     "Daily Balance Detail".toList,
     "end".toList]
    (ParseState.mk
      [⟨"03.05.2024".toList, TransactionType.DEDUCTION, ⟨9000, 2⟩,
        "Fee".toList⟩] (some TransactionType.DEDUCTION) ⟨0, 2⟩ ⟨10000, 2⟩)
    ["For the period 03/01/2024 to 03/31/2024".toList,
     "1.00 0.00 100.00 1.00".toList,
     "Banking/Debit Card Withdrawals and Purchases".toList,
     "03/05 90.00 Fee".toList,
     "Daily Balance Detail".toList]
    (by decide)
